import Mathlib

/-!
Verification of the WMATA rail/bus gap-analysis pipeline
(`src/data/csv_format/hot_zones.py`) against its specification.

The pipeline is embedded shallowly:

* pandas cell values become `CellVal` (number / text / missing);
* floating-point numbers become `ℚ` (exact rationals standing for the
  decimal values flowing through the program; binary-float rounding noise
  is not modelled);
* `difflib.SequenceMatcher.ratio`, used by the source's `similar`, is
  implemented faithfully for the `isjunk=None` configuration the source
  uses (including the `autojunk` purge of popular elements for second
  sequences of length ≥ 200);
* the haversine distance (`haversine_miles`) is real-valued trigonometry
  on floats; the Gap Analyzer is therefore embedded parametrically in the
  distance function `dist lon1 lat1 lon2 lat2`.
-/

namespace HotZones

/-- Distinct elements of a list in first-seen order, skipping anything in
`seen` (models `pandas.unique` and dict-key insertion order). -/
def uniqueFirstAux {α : Type} [DecidableEq α] : List α → List α → List α
  | _, [] => []
  | seen, x :: xs =>
    if x ∈ seen then uniqueFirstAux seen xs else x :: uniqueFirstAux (x :: seen) xs

/-- Distinct elements of a list in first-seen order. -/
def uniqueFirst {α : Type} [DecidableEq α] (l : List α) : List α := uniqueFirstAux [] l

/-- Arithmetic mean of a list of rationals (groups in the pipeline are
always nonempty, so the `length = 0` case never arises on real data). -/
def ratMean (l : List ℚ) : ℚ := l.sum / l.length

/-- The floor of a rational as floor-division of numerator by
denominator (equal to `⌊q⌋`, see `ratFloor_eq_floor`; stated this way so
that it evaluates by kernel reduction). -/
def ratFloor (q : ℚ) : ℤ := Int.fdiv q.num q.den

/-- Round to the nearest integer, ties to even (the rounding used by
Python's `round` and by `pandas.DataFrame.round`). -/
def roundHalfEven (q : ℚ) : ℤ :=
  if q - ratFloor q < 1/2 then ratFloor q
  else if 1/2 < q - ratFloor q then ratFloor q + 1
  else if ratFloor q % 2 = 0 then ratFloor q else ratFloor q + 1

/-- Round a rational to `dec` decimal digits, ties to even. -/
def roundq (dec : Nat) (q : ℚ) : ℚ := (roundHalfEven (q * 10 ^ dec) : ℚ) / 10 ^ dec

/-- Lower-case every character of a string (models `str.lower`). -/
def lowerStr (s : String) : String := (s.data.map Char.toLower).asString

/-!
## `find_best_column` (Schema Resolver)
-/

/-- The normalization of `find_best_column`:
`c.strip().lower().replace(' ', '').replace('-', '').replace('_', '')`. -/
def normKey (s : String) : String :=
  ((s.trim.data.map Char.toLower).filter
    (fun c => ¬ (c = ' ' ∨ c = '-' ∨ c = '_'))).asString

/-- `norm_map[key]`: the dict built with `norm_map[key] = c` over `df_cols`
in order keeps, for each normalized key, the **last** column with that
key. -/
def lookupNorm (cols : List String) (key : String) : Option String :=
  (cols.filter (fun c => normKey c = key)).getLast?

/-- Python's substring test `needle in hay` on strings. -/
def strContains (hay needle : String) : Bool :=
  (List.range (hay.data.length + 1)).any (fun i => needle.data.isPrefixOf (hay.data.drop i))

/-- `find_best_column(df_cols, candidates)`: first candidate (in priority
order) with an exact normalized match; otherwise first candidate with a
case-insensitive substring match, returning the first such column. -/
def find_best_column (cols cands : List String) : Option String :=
  match cands.findSome? (fun cand => lookupNorm cols (normKey cand)) with
  | some c => some c
  | none =>
    cands.findSome? (fun cand => cols.find? (fun c => strContains (lowerStr c) (lowerStr cand)))

/-!
## `difflib.SequenceMatcher` (as used by `similar`)

The source's `similar(a, b)` is
`SequenceMatcher(None, a.lower(), b.lower()).ratio()`.  With `isjunk=None`
the junk set `bjunk` is empty, so the two junk-extension loops of
`find_longest_match` never fire; the `autojunk` purge of popular elements
(second sequence of length ≥ 200) is kept.  `ratio()` is
`2 * M / T` where `M` is the total size of the matching blocks and
`T = len(a) + len(b)`; merging adjacent blocks does not change `M`, so we
compute `M` directly from the recursive block decomposition.
-/

/-- `b2j B c`: the ascending list of indices `j` with `B[j] = c`, after the
autojunk purge (`isjunk=None`): if `len(B) ≥ 200` and `c` occurs more than
`len(B) // 100 + 1` times, its index list is dropped.  `b2j.get(c, [])`
for a character absent from `B` is the empty list, as here. -/
def b2j (B : List Char) (c : Char) : List Nat :=
  let js := (List.range B.length).filter (fun j => B.getD j ' ' = c)
  if 200 ≤ B.length ∧ B.length / 100 + 1 < js.length then [] else js

/-- One row of the `find_longest_match` dynamic program: fold the ascending
index list `js = b2j B A[i]` over the current best `(besti, bestj, bestsize)`.
Python's `continue` (j < blo) and `break` (j ≥ bhi, valid because `js` is
ascending) are the guard; `f` is the previous row's `j2len` and the chain
length is `k = j2len.get(j-1, 0) + 1` (reads come from the previous row
only).  The updated best is `(i-k+1, j-k+1, k)`; truncated subtraction
agrees with Python because chains never extend past `alo`/`blo`. -/
def flmRowBest (alo blo bhi : Nat) (f : Nat → Nat) (i : Nat) (js : List Nat)
    (best : Nat × Nat × Nat) : Nat × Nat × Nat :=
  js.foldl (fun b j =>
    if blo ≤ j ∧ j < bhi then
      let k := (if j = 0 then 0 else f (j - 1)) + 1
      if b.2.2 < k then (i + 1 - k, j + 1 - k, k) else b
    else b) best

/-- The `newj2len` dict built during a row: entry `j ↦ j2len.get(j-1,0)+1`
for each processed `j` (entries are always ≥ 1, so value 0 encodes
absence). -/
def flmRowJ2len (blo bhi : Nat) (f : Nat → Nat) (js : List Nat) : Nat → Nat :=
  fun j => if j ∈ js ∧ blo ≤ j ∧ j < bhi then (if j = 0 then 0 else f (j - 1)) + 1 else 0

/-- One full row `i` of the dynamic program. -/
def dpStep (B : List Char) (alo blo bhi : Nat) (A : List Char)
    (st : (Nat × Nat × Nat) × (Nat → Nat)) (i : Nat) : (Nat × Nat × Nat) × (Nat → Nat) :=
  let js := b2j B (A.getD i ' ')
  (flmRowBest alo blo bhi st.2 i js st.1, flmRowJ2len blo bhi st.2 js)

/-- The dynamic-programming phase of `find_longest_match`: rows
`i = alo, …, ahi-1`, starting from best `(alo, blo, 0)` and an empty
`j2len`. -/
def flmDP (A B : List Char) (alo ahi blo bhi : Nat) : Nat × Nat × Nat :=
  ((List.range' alo (ahi - alo)).foldl (dpStep B alo blo bhi A) ((alo, blo, 0), fun _ => 0)).1

/-- Backward extension `while besti > alo and bestj > blo and
a[besti-1] == b[bestj-1]` (the junk variant is a no-op since
`isjunk=None`).  Structural recursion on `besti`. -/
def flmExtBack (A B : List Char) (alo blo : Nat) : Nat → Nat → Nat → Nat × Nat × Nat
  | 0, j, k => (0, j, k)
  | i + 1, j, k =>
    if alo < i + 1 ∧ blo < j ∧ A.getD i ' ' = B.getD (j - 1) ' ' then
      flmExtBack A B alo blo i (j - 1) (k + 1)
    else (i + 1, j, k)

/-- Forward extension `while besti+bestsize < ahi and bestj+bestsize < bhi
and a[besti+bestsize] == b[bestj+bestsize]`, fuelled by `ahi - (i + k)`
(each iteration needs `i + k < ahi`, so the fuel never runs out early). -/
def flmExtFwdAux (A B : List Char) (ahi bhi i j : Nat) : Nat → Nat → Nat
  | 0, k => k
  | fuel + 1, k =>
    if i + k < ahi ∧ j + k < bhi ∧ A.getD (i + k) ' ' = B.getD (j + k) ' ' then
      flmExtFwdAux A B ahi bhi i j fuel (k + 1)
    else k

/-- Forward extension of the best match. -/
def flmExtFwd (A B : List Char) (ahi bhi i j k : Nat) : Nat :=
  flmExtFwdAux A B ahi bhi i j (ahi - (i + k)) k

/-- Forward-extend a backward-extended match. -/
def flmExt (A B : List Char) (ahi bhi : Nat) (e : Nat × Nat × Nat) : Nat × Nat × Nat :=
  (e.1, e.2.1, flmExtFwd A B ahi bhi e.1 e.2.1 e.2.2)

/-- `find_longest_match(alo, ahi, blo, bhi)` for `isjunk=None`: dynamic
program, then backward and forward extension. -/
def findLongestMatch (A B : List Char) (alo ahi blo bhi : Nat) : Nat × Nat × Nat :=
  flmExt A B ahi bhi
    (flmExtBack A B alo blo (flmDP A B alo ahi blo bhi).1
      (flmDP A B alo ahi blo bhi).2.1 (flmDP A B alo ahi blo bhi).2.2)

/-- Total size of the matching blocks of `get_matching_blocks` restricted to
the window `[alo, ahi) × [blo, bhi)`, fuelled (the queue order of the
source is irrelevant to the sum).  With fuel ≥ `ahi - alo` the fuel never
runs out: each recursive window is strictly shorter in its first
component. -/
def matchSumF (A B : List Char) : Nat → Nat → Nat → Nat → Nat → Nat
  | 0, _, _, _, _ => 0
  | fuel + 1, alo, ahi, blo, bhi =>
    match findLongestMatch A B alo ahi blo bhi with
    | (i, j, k) =>
      if k = 0 then 0
      else
        k + (if alo < i ∧ blo < j then matchSumF A B fuel alo i blo j else 0) +
          (if i + k < ahi ∧ j + k < bhi then matchSumF A B fuel (i + k) ahi (j + k) bhi else 0)

/-- Sum of the sizes of all matching blocks of the two sequences. -/
def matchSum (A B : List Char) : Nat :=
  matchSumF A B A.length 0 A.length 0 B.length

/-- `SequenceMatcher.ratio()` = `2M / T`, and `1.0` when both sequences are
empty (`_calculate_ratio`). -/
def ratioQ (A B : List Char) : ℚ :=
  if A.length + B.length = 0 then 1
  else (2 * matchSum A B : ℚ) / (A.length + B.length)

/-- The source's `similar(a, b)`: `SequenceMatcher` ratio of the
lower-cased strings. -/
def similar (a b : String) : ℚ :=
  ratioQ (a.data.map Char.toLower) (b.data.map Char.toLower)

/-!
## Rail Usage Aggregator (`run_analysis`, step 1)

A pandas cell is a number, a text value, or missing (`NaN`).  The
embedding covers tables whose boardings cells are numeric-or-missing: the
source additionally coerces textual boardings by stripping thousands
separators, which produces a numeric value subsumed by `CellVal.num`
(a table whose boardings defeat that coercion dies inside the source's
per-table `try/except` and contributes nothing; a claim over non-numeric
boardings is outside this scope).

Within that numeric scope the per-table `try/except` (hot_zones.py
161-170) is still reachable, and is modelled: the aggregation raises
exactly when the resolved columns collide.  When the stop and boardings
columns coincide, `reset_index` tries to insert the value column under a
name that is already a group-key level (`ValueError: cannot insert ...,
already exists`); when the date column coincides with the boardings
column, the boardings were datetime-coerced and the grouped `sum` raises;
when the date column coincides with the stop column, the duplicated group
key makes `reset_index` insert the same label twice.  A synthesized date
column (`'_synthetic_date_'`) never collides: the resolver would have
matched a physical column of that name as a date column (it contains
`date`).  All collision cases land in the `except` branch, so the table
contributes nothing.
-/

/-- A pandas cell value. -/
inductive CellVal
  | num (q : ℚ)
  | str (s : String)
  | missing
deriving DecidableEq

/-- A raw table: column headers plus rows of named cells. -/
structure RailTable where
  cols : List String
  rows : List (List (String × CellVal))

/-- Cell lookup by column name (absent column = missing value). -/
def getCell (row : List (String × CellVal)) (c : String) : CellVal :=
  ((row.find? (fun p => p.1 = c)).map (fun p => p.2)).getD CellVal.missing

/-- Numeric value of a (non-missing) boardings cell; see the section
comment for the scope of the `str` case. -/
def cellBoard : CellVal → ℚ
  | .num q => q
  | .str _ => 0
  | .missing => 0

/-- Date-column candidates of `run_analysis`. -/
def dateCandidates : List String := ["svc_date", "svcdate", "date", "service_date", "day"]

/-- Stop-column candidates of `run_analysis`. -/
def stopCandidates : List String := ["stop_id", "stopid", "station_id", "stationid", "stop"]

/-- Boardings-column candidates of `run_analysis`. -/
def boardCandidates : List String :=
  ["avg_boardings", "avg_boarding", "avg_daily_boardings", "boardings", "daily_boardings",
    "avg_daily"]

/-- The per-table aggregation `try` block raises iff the resolved columns
collide (see the section comment): stop = boardings, or a resolved date
column equal to either.  `dc = none` is the synthetic date column, which
never collides. -/
def aggRaises (dc : Option String) (sc bc : String) : Bool :=
  sc == bc || (match dc with
    | some d => d == sc || d == bc
    | none => false)

/-- The successful aggregation path of a table whose stop column `sc` and
boardings column `bc` resolved and do not collide:

* drop rows with missing boardings or stop id;
* group by `[date, stop]` and sum boardings — pandas drops any row whose
  grouping key contains `NaT`/`NaN`, which is why `rows2` filters on
  `(dkey r).isSome`; when no date column resolves, the source's synthetic
  date column is all-`NaT`, so `dkey` is constantly `none`;
* per stop, mean of the daily totals.

Group keys are listed in first-seen order (pandas sorts them; no claim
depends on key order). -/
def railFigures (pd : CellVal → Option String) (t : RailTable) (sc bc : String) :
    List (CellVal × ℚ) :=
  let dc := find_best_column t.cols dateCandidates
  let rows1 := t.rows.filter
    (fun r => getCell r bc ≠ CellVal.missing ∧ getCell r sc ≠ CellVal.missing)
  let dkey : List (String × CellVal) → Option String := fun r =>
    match dc with
    | some c => pd (getCell r c)
    | none => none
  let rows2 := rows1.filter (fun r => (dkey r).isSome)
  let triples := rows2.map
    (fun r => ((dkey r).getD "", getCell r sc, cellBoard (getCell r bc)))
  let dailyKeys := uniqueFirst (triples.map (fun p => (p.1, p.2.1)))
  let daily := dailyKeys.map (fun k =>
    (k, ((triples.filter (fun p => p.1 = k.1 ∧ p.2.1 = k.2)).map (fun p => p.2.2)).sum))
  let stops := uniqueFirst (daily.map (fun d => d.1.2))
  stops.map (fun s =>
    (s, ratMean ((daily.filter (fun d => d.1.2 = s)).map (fun d => d.2))))

/-- Per-table rail processing.  `pd` stands for
`pd.to_datetime(·, errors='coerce')`: the date key of a cell, `none` for
`NaT`.  Returns `none` when the table contributes nothing: either it is
skipped (no resolvable stop or boardings column) or its aggregation dies
in the per-table `try/except` (resolved columns collide, `aggRaises`);
otherwise the per-stop `avg_daily_boardings_for_year` figures
(`railFigures`). -/
def processRailTable (pd : CellVal → Option String) (t : RailTable) :
    Option (List (CellVal × ℚ)) :=
  match find_best_column t.cols stopCandidates, find_best_column t.cols boardCandidates with
  | some sc, some bc =>
    if aggRaises (find_best_column t.cols dateCandidates) sc bc then none
    else some (railFigures pd t sc bc)
  | _, _ => none

/-- The entry a table appends to `year_station_dfs`: the resolved stop
column name (the summary keeps it as its first column header, line 165)
paired with the per-stop figures; `none` when the table contributes
nothing. -/
def yearEntry (pd : CellVal → Option String) (t : RailTable) :
    Option (String × List (CellVal × ℚ)) :=
  match find_best_column t.cols stopCandidates, processRailTable pd t with
  | some sc, some ys => some (sc, ys)
  | _, _ => none

/-- The rail-file loop: an input is `none` when the file is absent or
unreadable, `some t` when it parses to table `t`.  Skipped and
aggregation-failed tables contribute nothing; processed tables append
their year summary (possibly empty) under their stop column's name. -/
def year_station_dfs (pd : CellVal → Option String) (files : List (Option RailTable)) :
    List (String × List (CellVal × ℚ)) :=
  files.filterMap (fun f => f.bind (yearEntry pd))

/-- The source's abort test
`if not found_any_rail or not year_station_dfs` — no file was readable, or
no table survived to contribute a year summary. -/
def abortsRun (pd : CellVal → Option String) (files : List (Option RailTable)) : Bool :=
  !files.any (fun f => f.isSome) || (year_station_dfs pd files).isEmpty

/-- Per-stop mean of a list of year summaries
(`groupby(...)['avg_daily_boardings_for_year'].mean()`; key order
modelled first-seen, pandas sorts — no claim depends on it). -/
def groupMeanByStop (yss : List (List (CellVal × ℚ))) : List (CellVal × ℚ) :=
  let allRows := yss.flatten
  let stops := uniqueFirst (allRows.map (fun p => p.1))
  stops.map (fun s => (s, ratMean ((allRows.filter (fun p => p.1 = s)).map (fun p => p.2))))

/-- Multi-year combination, lines 177-178.  `pd.concat` aligns the year
summaries on column names, and the grouping key is
`all_years.columns[0]` — the **first** summary's stop column name.  A row
of a summary whose stop column resolved under a different name holds
`NaN` in that column and is dropped by `groupby` (`dropna=True`), so only
the summaries sharing the first table's stop column name contribute. -/
def combineYears (yss : List (String × List (CellVal × ℚ))) : List (CellVal × ℚ) :=
  match yss with
  | [] => []
  | (k, _) :: _ => groupMeanByStop ((yss.filter (fun p => p.1 = k)).map (fun p => p.2))

/-!
## Geocoding Reconciler (`run_analysis`, step 3)
-/

/-- A cleaned bus observation row (`STOP`, `LAT`, `LON`,
`SUM_PASSENGERS_ON`, `ROUTE_NAME`); rows with missing or non-numeric
coordinates were already dropped by step 2. -/
structure BusObs where
  stop : String
  lat : ℚ
  lon : ℚ
  board : ℚ
  route : String
deriving DecidableEq

/-- `bus_stop_agg`: group observations by exact stop name; mean latitude,
mean longitude, summed boardings. -/
def busAgg (obs : List BusObs) : List (String × ℚ × ℚ × ℚ) :=
  let stops := uniqueFirst (obs.map (fun o => o.stop))
  stops.map (fun s =>
    let g := obs.filter (fun o => o.stop = s)
    (s, ratMean (g.map (fun o => o.lat)), ratMean (g.map (fun o => o.lon)),
      (g.map (fun o => o.board)).sum))

/-- Tokenization used for the token-overlap gate:
`''.join(ch if ch.isalnum() else ' ' for ch in s).split()`, keeping only
tokens of length > 1. -/
def tokenize (s : String) : List String :=
  (((s.data.map (fun ch => if ch.isAlphanum then ch else ' ')).asString).split
    (fun ch => ch = ' ')).filter (fun t => 1 < t.length)

/-- `token_overlap`: the number of distinct lower-cased tokens shared by
the two names (`len(set(...) & set(...))`). -/
def tokenOverlap (st b : String) : Nat :=
  ((uniqueFirst ((tokenize st).map lowerStr)).filter
    (fun t => t ∈ (tokenize b).map lowerStr)).length

/-- A bus stop name is an acceptable fuzzy match for a station name:
token overlap with similarity above 0.6, or similarity above 0.78. -/
def Accept (st b : String) : Prop :=
  (1 ≤ tokenOverlap st b ∧ 6/10 < similar st b) ∨ 78/100 < similar st b

instance (st b : String) : Decidable (Accept st b) := by
  unfold Accept; infer_instance

/-- One iteration of the fuzzy-match loop over `bus_stop_names`: state is
`(best_match, best_ratio)`, initially `(none, 0)`.  Empty names are
skipped (`if not bname`); the `elif` branch is the
high-similarity-without-token-overlap case. -/
def stepMatch (st : String) (s : Option String × ℚ) (b : String) : Option String × ℚ :=
  if b = "" then s
  else
    if 1 ≤ tokenOverlap st b ∧ 6/10 < similar st b then
      if s.2 < similar st b then (some b, similar st b) else s
    else
      if s.2 < similar st b ∧ 78/100 < similar st b then (some b, similar st b) else s

/-- The fuzzy-match search for one rail station over the bus stop names. -/
def matchFold (st : String) (names : List String) : Option String × ℚ :=
  names.foldl (stepMatch st) (none, 0)

/-- A geocoded rail station (one entry of `rail_locations`). -/
structure RailLoc where
  stopId : CellVal
  name : String
  railBoardings : ℚ
  lat : ℚ
  lon : ℚ
  matched : String
  score : ℚ
deriving DecidableEq

/-- Step 3: for each rail station (id, resolved name, multi-year average),
run the fuzzy match against the aggregated bus stop names; on success
look up the matched stop's aggregate row
(`bus_stop_agg[bus_stop_agg['STOP'] == best_match].iloc[0]`) for the
coordinates; stations with no match are dropped. -/
def locate (stations : List (CellVal × String × ℚ)) (obs : List BusObs) : List RailLoc :=
  let agg := busAgg obs
  let names := agg.map (fun a => a.1)
  stations.filterMap (fun s =>
    match matchFold s.2.1 names with
    | (some bm, r) =>
      match agg.find? (fun a => a.1 = bm) with
      | some a => some ⟨s.1, s.2.1, s.2.2, a.2.1, a.2.2.1, bm, r⟩
      | none => none
    | (none, _) => none)

/-!
## Hotspot Clusterer (`run_analysis`, step 4)
-/

/-- A bus hotspot row of `agg` / `bus_hotspots`. -/
structure Hotspot where
  latR : ℚ
  lonR : ℚ
  boardings : ℚ
  repStop : String
  routes : String
deriving DecidableEq

/-- `x.mode().iat[0]` for a group of stop names: pandas `Series.mode`
returns the most frequent values **in sorted order**, so ties go to the
smallest name in string order (the `x.iloc[0]` fallback fires only for an
empty group, which cannot occur). -/
def modeRep : List String → String
  | [] => ""
  | s₀ :: rest =>
    let l := s₀ :: rest
    let mx := ((uniqueFirst l).map (fun s => l.count s)).foldl max 0
    let tied := (uniqueFirst l).filter (fun s => l.count s = mx)
    tied.foldl (fun acc s => if compare s acc = Ordering.lt then s else acc) (tied.headD s₀)

/-- Step 4: round coordinates to `dec` decimals, group by the rounded
pair, sum boardings, take the representative stop name and the first five
distinct routes (`', '.join(pd.unique(...)[:5])`), and keep groups with at
least `minB` boardings. -/
def cluster (obs : List BusObs) (dec : Nat) (minB : ℚ) : List Hotspot :=
  let key := fun (o : BusObs) => (roundq dec o.lat, roundq dec o.lon)
  let keys := uniqueFirst (obs.map key)
  (keys.map (fun k =>
    let g := obs.filter (fun o => key o = k)
    { latR := k.1, lonR := k.2,
      boardings := (g.map (fun o => o.board)).sum,
      repStop := modeRep (g.map (fun o => o.stop)),
      routes := String.intercalate ", " ((uniqueFirst (g.map (fun o => o.route))).take 5) })
  ).filter (fun h => minB ≤ h.boardings)

/-!
## Gap Analyzer (`run_analysis`, step 5)

`haversine_miles` is floating-point trigonometry; the analyzer is
embedded parametrically in `dist lon1 lat1 lon2 lat2` (the argument order
of the source).  The source's `try/except` around a distance call can
only fire on malformed coordinates, which the embedding's total `dist`
has no counterpart for.
-/

/-- A candidate row of `potential_stations`.  The source stores the
*string* `"None"` for a missing nearest station and Python `None` for a
missing distance; both are modelled as `Option.none`. -/
structure Candidate where
  name : String
  lat : ℚ
  lon : ℚ
  busBoardings : ℚ
  nearestRail : Option String
  distanceMiles : Option ℚ
  routes : String
deriving DecidableEq

/-- The nearest-rail loop: running `(nearest_station, min_dist)`, with
`min_dist = inf`/`nearest_station = None` represented by `none` (a first
station always satisfies `d < inf`); strictly closer stations replace the
running best, so ties keep the earliest station. -/
def nearestRail (dist : ℚ → ℚ → ℚ → ℚ → ℚ) (bLat bLon : ℚ) (rails : List RailLoc) :
    Option (String × ℚ) :=
  rails.foldl (fun acc r =>
    let d := dist bLon bLat r.lon r.lat
    match acc with
    | none => some (r.name, d)
    | some pr => if d < pr.2 then some (r.name, d) else acc) none

/-- The minimum distance from a hotspot to the geocoded rail stations
(`none` when there are none). -/
def minDistQ (dist : ℚ → ℚ → ℚ → ℚ → ℚ) (b : Hotspot) (rails : List RailLoc) : Option ℚ :=
  (rails.map (fun r => dist b.lonR b.latR r.lon r.lat)).min?

/-- `min_dist is None or min_dist > MIN_DISTANCE_MILES`: `min_dist` is
never Python `None`; with no rail stations it is `inf`, which exceeds any
threshold, hence the `none ↦ True` case. -/
def farEnough (minD : ℚ) : Option (String × ℚ) → Prop
  | none => True
  | some pr => minD < pr.2

instance (minD : ℚ) (o : Option (String × ℚ)) : Decidable (farEnough minD o) :=
  match o with
  | none => isTrue trivial
  | some pr => inferInstanceAs (Decidable (minD < pr.2))

/-- Python's `round(q, 2)`. -/
def round2 (q : ℚ) : ℚ := roundq 2 q

/-- The candidate test and row for one hotspot: qualify when boardings
reach `minB` and the nearest rail (if any) is farther than `minD`; the
stored distance is rounded to two decimals, and `inf` (no station)
becomes `none`. -/
def gapCandidate (dist : ℚ → ℚ → ℚ → ℚ → ℚ) (rails : List RailLoc) (minB minD : ℚ)
    (b : Hotspot) : Option Candidate :=
  let nr := nearestRail dist b.latR b.lonR rails
  if minB ≤ b.boardings ∧ farEnough minD nr then
    some { name := b.repStop, lat := b.latR, lon := b.lonR, busBoardings := b.boardings,
           nearestRail := nr.map (fun pr => pr.1),
           distanceMiles := nr.map (fun pr => round2 pr.2), routes := b.routes }
  else none

/-- Step 5's loop over the hotspots, building `potential_stations`. -/
def findGaps (dist : ℚ → ℚ → ℚ → ℚ → ℚ) (hs : List Hotspot) (rails : List RailLoc)
    (minB minD : ℚ) : List Candidate :=
  hs.filterMap (gapCandidate dist rails minB minD)

/-- `potential_df.sort_values('Bus_Boardings', ascending=False).head(50)`:
sort descending by bus boardings and keep the top 50.  pandas'
default sort is an unstable quicksort, so the order of candidates with
equal boardings is not specified by the source; the embedding fixes a
stable insertion sort as a canonical representative, and no theorem below
relies on the order within a tie class. -/
def gapFinal (dist : ℚ → ℚ → ℚ → ℚ → ℚ) (hs : List Hotspot) (rails : List RailLoc)
    (minB minD : ℚ) : List Candidate :=
  ((findGaps dist hs rails minB minD).insertionSort
    (fun c₁ c₂ => c₂.busBoardings ≤ c₁.busBoardings)).take 50

/-!
## Invariants used to bound `find_longest_match`
-/

/-- Invariant of the running best `(besti, bestj, bestsize)` of the
dynamic program: a zero size means the initial `(alo, blo, 0)`, and a
nonzero size describes a block inside `[alo, cap) × [blo, bhi)`. -/
def BestBnd (alo blo bhi cap : Nat) (b : Nat × Nat × Nat) : Prop :=
  (b.2.2 = 0 → b = (alo, blo, 0)) ∧
  (0 < b.2.2 → alo ≤ b.1 ∧ blo ≤ b.2.1 ∧ b.1 + b.2.2 ≤ cap ∧ b.2.1 + b.2.2 ≤ bhi)

/-- Invariant of a `j2len` row: a nonzero chain length at `j` lies in
`[blo, bhi)`, fits left of `blo`, and is at most `m` (the number of rows
processed so far). -/
def J2Bnd (blo bhi m : Nat) (f : Nat → Nat) : Prop :=
  ∀ j, f j ≠ 0 → blo ≤ j ∧ j < bhi ∧ f j ≤ j + 1 - blo ∧ f j ≤ m

theorem ratFloor_eq_floor (q : ℚ) : ratFloor q = ⌊q⌋ := by
  rw [Rat.floor_def, ← Int.fdiv_eq_ediv _ (by positivity)]
  rfl

theorem mem_uniqueFirstAux {α : Type} [DecidableEq α] :
    ∀ (l seen : List α) (x : α), x ∈ uniqueFirstAux seen l ↔ x ∈ l ∧ x ∉ seen := by
  intro l
  induction l with
  | nil => intro seen x; simp [uniqueFirstAux]
  | cons a as ih =>
    intro seen x
    by_cases ha : a ∈ seen
    · rw [uniqueFirstAux, if_pos ha, ih]
      constructor
      · rintro ⟨hx, hns⟩; exact ⟨List.mem_cons_of_mem _ hx, hns⟩
      · rintro ⟨hx, hns⟩
        rcases List.mem_cons.mp hx with h | h
        · exact absurd (h ▸ ha) hns
        · exact ⟨h, hns⟩
    · rw [uniqueFirstAux, if_neg ha]
      constructor
      · intro hx
        rcases List.mem_cons.mp hx with h | h
        · exact ⟨h ▸ List.mem_cons_self _ _, h ▸ ha⟩
        · have := (ih _ x).mp h
          refine ⟨List.mem_cons_of_mem _ this.1, fun hs => this.2 (List.mem_cons_of_mem _ hs)⟩
      · rintro ⟨hx, hns⟩
        rcases List.mem_cons.mp hx with h | h
        · exact h ▸ List.mem_cons_self _ _
        · by_cases hxa : x = a
          · exact hxa ▸ List.mem_cons_self _ _
          · exact List.mem_cons_of_mem _ ((ih _ x).mpr ⟨h, by
              intro hs
              rcases List.mem_cons.mp hs with h' | h'
              · exact hxa h'
              · exact hns h'⟩)

theorem mem_uniqueFirst {α : Type} [DecidableEq α] (l : List α) (x : α) :
    x ∈ uniqueFirst l ↔ x ∈ l := by
  rw [uniqueFirst, mem_uniqueFirstAux]; simp

theorem nodup_uniqueFirstAux {α : Type} [DecidableEq α] :
    ∀ (l seen : List α), (uniqueFirstAux seen l).Nodup := by
  intro l
  induction l with
  | nil => intro seen; simp [uniqueFirstAux]
  | cons a as ih =>
    intro seen
    by_cases ha : a ∈ seen
    · rw [uniqueFirstAux, if_pos ha]; exact ih seen
    · rw [uniqueFirstAux, if_neg ha]
      refine List.nodup_cons.mpr ⟨?_, ih _⟩
      intro hmem
      exact ((mem_uniqueFirstAux _ _ _).mp hmem).2 (List.mem_cons_self _ _)

theorem nodup_uniqueFirst {α : Type} [DecidableEq α] (l : List α) :
    (uniqueFirst l).Nodup := nodup_uniqueFirstAux l []

theorem bestBnd_mono {alo blo bhi cap cap' : Nat} {b : Nat × Nat × Nat}
    (h : BestBnd alo blo bhi cap b) (hc : cap ≤ cap') : BestBnd alo blo bhi cap' b := by
  refine ⟨h.1, fun hk => ?_⟩
  obtain ⟨h1, h2, h3, h4⟩ := h.2 hk
  exact ⟨h1, h2, le_trans h3 hc, h4⟩

theorem flmRowBest_bnd {alo blo bhi i : Nat} {f : Nat → Nat}
    (hi : alo ≤ i) (hf : J2Bnd blo bhi (i - alo) f) :
    ∀ (js : List Nat) (best : Nat × Nat × Nat), BestBnd alo blo bhi (i + 1) best →
      BestBnd alo blo bhi (i + 1) (flmRowBest alo blo bhi f i js best) := by
  intro js
  induction js with
  | nil => intro best hb; exact hb
  | cons j js ih =>
    intro best hb
    have hcons : flmRowBest alo blo bhi f i (j :: js) best =
        flmRowBest alo blo bhi f i js
          (if blo ≤ j ∧ j < bhi then
            if best.2.2 < (if j = 0 then 0 else f (j - 1)) + 1 then
              (i + 1 - ((if j = 0 then 0 else f (j - 1)) + 1),
                j + 1 - ((if j = 0 then 0 else f (j - 1)) + 1),
                (if j = 0 then 0 else f (j - 1)) + 1)
            else best
          else best) := rfl
    rw [hcons]
    apply ih
    by_cases hg : blo ≤ j ∧ j < bhi
    · rw [if_pos hg]
      by_cases hup : best.2.2 < (if j = 0 then 0 else f (j - 1)) + 1
      · rw [if_pos hup]
        have hk1 : (if j = 0 then 0 else f (j - 1)) + 1 ≤ i + 1 - alo ∧
            (if j = 0 then 0 else f (j - 1)) + 1 ≤ j + 1 - blo := by
          by_cases hj : j = 0
          · rw [if_pos hj]
            subst hj
            omega
          · rw [if_neg hj]
            by_cases hf0 : f (j - 1) = 0
            · rw [hf0]; omega
            · obtain ⟨ha, hb', hc, hd⟩ := hf (j - 1) hf0
              omega
        constructor
        · intro h0; simp at h0
        · intro _
          refine ⟨?_, ?_, ?_, ?_⟩ <;> simp only [] <;> omega
      · rw [if_neg hup]; exact hb
    · rw [if_neg hg]; exact hb

theorem flmRowJ2len_bnd {alo blo bhi i : Nat} {f : Nat → Nat} {js : List Nat}
    (hi : alo ≤ i) (hf : J2Bnd blo bhi (i - alo) f) :
    J2Bnd blo bhi (i + 1 - alo) (flmRowJ2len blo bhi f js) := by
  intro j hne
  unfold flmRowJ2len at hne ⊢
  by_cases hg : j ∈ js ∧ blo ≤ j ∧ j < bhi
  · rw [if_pos hg]
    refine ⟨hg.2.1, hg.2.2, ?_, ?_⟩
    · by_cases hj : j = 0
      · rw [if_pos hj]; subst hj; omega
      · rw [if_neg hj]
        by_cases hf0 : f (j - 1) = 0
        · rw [hf0]; omega
        · obtain ⟨ha, hb', hc, hd⟩ := hf (j - 1) hf0
          omega
    · by_cases hj : j = 0
      · rw [if_pos hj]; omega
      · rw [if_neg hj]
        by_cases hf0 : f (j - 1) = 0
        · rw [hf0]; omega
        · obtain ⟨ha, hb', hc, hd⟩ := hf (j - 1) hf0
          omega
  · rw [if_neg hg] at hne; exact absurd rfl hne

theorem dpLoop_bnd {A B : List Char} {alo blo bhi : Nat} :
    ∀ (n i : Nat) (st : (Nat × Nat × Nat) × (Nat → Nat)), alo ≤ i →
      J2Bnd blo bhi (i - alo) st.2 → BestBnd alo blo bhi i st.1 →
      BestBnd alo blo bhi (i + n) (((List.range' i n).foldl (dpStep B alo blo bhi A) st).1) := by
  intro n
  induction n with
  | zero => intro i st _ _ hb; simpa using hb
  | succ n ih =>
    intro i st hi hf hb
    rw [List.range'_succ, List.foldl_cons]
    have hstep : BestBnd alo blo bhi (i + 1) (dpStep B alo blo bhi A st i).1 ∧
        J2Bnd blo bhi (i + 1 - alo) (dpStep B alo blo bhi A st i).2 := by
      constructor
      · exact flmRowBest_bnd hi hf _ _ (bestBnd_mono hb (Nat.le_succ i))
      · exact flmRowJ2len_bnd hi hf
    have := ih (i + 1) (dpStep B alo blo bhi A st i) (Nat.le_succ_of_le hi) hstep.2 hstep.1
    have harith : i + 1 + n = i + (n + 1) := by omega
    rwa [harith] at this

theorem flmDP_bnd (A B : List Char) (alo ahi blo bhi : Nat) :
    BestBnd alo blo bhi (alo + (ahi - alo)) (flmDP A B alo ahi blo bhi) := by
  unfold flmDP
  apply dpLoop_bnd (ahi - alo) alo ((alo, blo, 0), fun _ => 0) (le_refl alo)
  · intro j hne; exact absurd rfl hne
  · exact ⟨fun _ => rfl, fun h0 => absurd h0 (by simp)⟩

theorem flmDP_of_le {A B : List Char} {alo ahi blo bhi : Nat} (h : ahi ≤ alo) :
    flmDP A B alo ahi blo bhi = (alo, blo, 0) := by
  unfold flmDP
  rw [Nat.sub_eq_zero_of_le h]
  rfl

theorem flmExtBack_stop {A B : List Char} {alo blo i j k : Nat} (h : ¬ alo < i) :
    flmExtBack A B alo blo i j k = (i, j, k) := by
  cases i with
  | zero => rfl
  | succ i' =>
    unfold flmExtBack
    rw [if_neg]
    intro hc
    exact h hc.1

theorem flmExtBack_bnd {A B : List Char} {alo blo : Nat} :
    ∀ (i j k : Nat), alo ≤ i → blo ≤ j →
      alo ≤ (flmExtBack A B alo blo i j k).1 ∧
      blo ≤ (flmExtBack A B alo blo i j k).2.1 ∧
      (flmExtBack A B alo blo i j k).1 + (flmExtBack A B alo blo i j k).2.2 = i + k ∧
      (flmExtBack A B alo blo i j k).2.1 + (flmExtBack A B alo blo i j k).2.2 = j + k := by
  intro i
  induction i with
  | zero =>
    intro j k hi hj
    exact ⟨hi, hj, rfl, rfl⟩
  | succ i' ih =>
    intro j k hi hj
    unfold flmExtBack
    by_cases hg : alo < i' + 1 ∧ blo < j ∧ A.getD i' ' ' = B.getD (j - 1) ' '
    · rw [if_pos hg]
      have h1 : alo ≤ i' := by omega
      have h2 : blo ≤ j - 1 := by omega
      obtain ⟨ha, hb, hc, hd⟩ := ih (j - 1) (k + 1) h1 h2
      exact ⟨ha, hb, by omega, by omega⟩
    · rw [if_neg hg]
      exact ⟨hi, hj, rfl, rfl⟩

theorem flmExtFwdAux_bnd {A B : List Char} {ahi bhi i j : Nat} :
    ∀ (fuel k : Nat),
      flmExtFwdAux A B ahi bhi i j fuel k = k ∨
        (i + flmExtFwdAux A B ahi bhi i j fuel k ≤ ahi ∧
          j + flmExtFwdAux A B ahi bhi i j fuel k ≤ bhi) := by
  intro fuel
  induction fuel with
  | zero => intro k; exact Or.inl rfl
  | succ fuel ih =>
    intro k
    unfold flmExtFwdAux
    by_cases hg : i + k < ahi ∧ j + k < bhi ∧ A.getD (i + k) ' ' = B.getD (j + k) ' '
    · rw [if_pos hg]
      rcases ih (k + 1) with h | h
      · rw [h]; right; omega
      · exact Or.inr h
    · rw [if_neg hg]; exact Or.inl rfl

theorem findLongestMatch_bnd (A B : List Char) (alo ahi blo bhi : Nat)
    (hk : (findLongestMatch A B alo ahi blo bhi).2.2 ≠ 0) :
    alo ≤ (findLongestMatch A B alo ahi blo bhi).1 ∧
    blo ≤ (findLongestMatch A B alo ahi blo bhi).2.1 ∧
    (findLongestMatch A B alo ahi blo bhi).1 + (findLongestMatch A B alo ahi blo bhi).2.2 ≤ ahi ∧
    (findLongestMatch A B alo ahi blo bhi).2.1 + (findLongestMatch A B alo ahi blo bhi).2.2 ≤ bhi := by
  have hdp := flmDP_bnd A B alo ahi blo bhi
  rcases hd : flmDP A B alo ahi blo bhi with ⟨di, dj, dk⟩
  rw [hd] at hdp
  rcases he : flmExtBack A B alo blo di dj dk with ⟨ei, ej, ek⟩
  have hunf : findLongestMatch A B alo ahi blo bhi =
      (ei, ej, flmExtFwd A B ahi bhi ei ej ek) := by
    unfold findLongestMatch
    rw [hd]
    simp only [flmExt]
    rw [he]
  rw [hunf] at hk ⊢
  simp only [] at hk ⊢
  by_cases hz : dk = 0
  · subst hz
    have hinit : (di, dj, (0 : Nat)) = (alo, blo, 0) := hdp.1 rfl
    injection hinit with hdi hrest
    injection hrest with hdj hzero
    rw [hdi, hdj] at he
    rw [flmExtBack_stop (lt_irrefl alo)] at he
    injection he with hei hrest2
    injection hrest2 with hej hek
    subst hei; subst hej; subst hek
    simp only [flmExtFwd] at hk ⊢
    rcases @flmExtFwdAux_bnd A B ahi bhi alo blo (ahi - (alo + 0)) 0 with h | h
    · exact absurd h hk
    · exact ⟨le_refl alo, le_refl blo, h.1, h.2⟩
  · have halo : ¬ ahi ≤ alo := by
      intro hle
      rw [flmDP_of_le hle] at hd
      injection hd with hx hrest
      injection hrest with hy hzz
      exact hz hzz.symm
    obtain ⟨h1, h2, h3, h4⟩ := hdp.2 (Nat.pos_of_ne_zero hz)
    simp only [] at h1 h2 h3 h4
    have hcap : alo + (ahi - alo) = ahi := by omega
    rw [hcap] at h3
    have heb := @flmExtBack_bnd A B alo blo di dj dk h1 h2
    rw [he] at heb
    obtain ⟨e1, e2, e3, e4⟩ := heb
    simp only [] at e1 e2 e3 e4
    simp only [flmExtFwd]
    rcases @flmExtFwdAux_bnd A B ahi bhi ei ej (ahi - (ei + ek)) ek with h | h
    · rw [h]
      exact ⟨e1, e2, by omega, by omega⟩
    · exact ⟨e1, e2, h.1, h.2⟩

theorem matchSumF_le (A B : List Char) :
    ∀ (fuel alo ahi blo bhi : Nat),
      matchSumF A B fuel alo ahi blo bhi ≤ ahi - alo ∧
      matchSumF A B fuel alo ahi blo bhi ≤ bhi - blo := by
  intro fuel
  induction fuel with
  | zero => intro alo ahi blo bhi; simp [matchSumF]
  | succ fuel ih =>
    intro alo ahi blo bhi
    rcases hm : findLongestMatch A B alo ahi blo bhi with ⟨mi, mj, mk⟩
    have hunf : matchSumF A B (fuel + 1) alo ahi blo bhi =
        (if mk = 0 then 0
        else
          mk + (if alo < mi ∧ blo < mj then matchSumF A B fuel alo mi blo mj else 0) +
            (if mi + mk < ahi ∧ mj + mk < bhi then
              matchSumF A B fuel (mi + mk) ahi (mj + mk) bhi else 0)) := by
      simp only [matchSumF]
      rw [hm]
    rw [hunf]
    by_cases hz : mk = 0
    · rw [if_pos hz]; omega
    · rw [if_neg hz]
      have hb := findLongestMatch_bnd A B alo ahi blo bhi (by rw [hm]; exact hz)
      rw [hm] at hb
      obtain ⟨h1', h2', h3', h4'⟩ := hb
      have h1 : alo ≤ mi := h1'
      have h2 : blo ≤ mj := h2'
      have h3 : mi + mk ≤ ahi := h3'
      have h4 : mj + mk ≤ bhi := h4'
      have hihl := ih alo mi blo mj
      have hihr := ih (mi + mk) ahi (mj + mk) bhi
      by_cases hl : alo < mi ∧ blo < mj <;>
        by_cases hr : mi + mk < ahi ∧ mj + mk < bhi
      · rw [if_pos hl, if_pos hr]
        constructor <;> omega
      · rw [if_pos hl, if_neg hr]
        constructor <;> omega
      · rw [if_neg hl, if_pos hr]
        constructor <;> omega
      · rw [if_neg hl, if_neg hr]
        constructor <;> omega

theorem matchSum_le (A B : List Char) :
    matchSum A B ≤ A.length ∧ matchSum A B ≤ B.length := by
  have h := matchSumF_le A B A.length 0 A.length 0 B.length
  simpa [matchSum] using h

theorem ratioQ_nonneg (A B : List Char) : 0 ≤ ratioQ A B := by
  unfold ratioQ
  by_cases h : A.length + B.length = 0
  · rw [if_pos h]; norm_num
  · rw [if_neg h]
    apply div_nonneg
    · positivity
    · positivity

theorem ratioQ_le_one (A B : List Char) : ratioQ A B ≤ 1 := by
  unfold ratioQ
  by_cases h : A.length + B.length = 0
  · rw [if_pos h]
  · rw [if_neg h]
    rw [div_le_one]
    · have hn : 2 * matchSum A B ≤ A.length + B.length := by
        have := matchSum_le A B
        omega
      exact_mod_cast hn
    · have hp : 0 < A.length + B.length := Nat.pos_of_ne_zero h
      exact_mod_cast hp

theorem similar_nonneg (a b : String) : 0 ≤ similar a b := ratioQ_nonneg _ _

theorem similar_le_one (a b : String) : similar a b ≤ 1 := ratioQ_le_one _ _

theorem similar_empty_right (st : String) (hst : st ≠ "") : similar st "" = 0 := by
  unfold similar ratioQ
  have hm : matchSum (st.data.map Char.toLower) (("" : String).data.map Char.toLower) = 0 := by
    have h := (matchSum_le (st.data.map Char.toLower) (("" : String).data.map Char.toLower)).2
    simpa using h
  have hne : (st.data.map Char.toLower).length + (("" : String).data.map Char.toLower).length ≠ 0 := by
    intro h
    apply hst
    have hz : (st.data.map Char.toLower).length = 0 := by
      have h0 : ((("" : String).data.map Char.toLower)).length = 0 := rfl
      omega
    rw [List.length_map] at hz
    have hnil : st.data = [] := List.eq_nil_of_length_eq_zero hz
    exact String.ext (hnil.trans rfl)
  rw [if_neg hne, hm]
  simp

theorem accept_empty_right (st : String) (hst : st ≠ "") : ¬ Accept st "" := by
  intro h
  have hs := similar_empty_right st hst
  rcases h with ⟨_, hsim⟩ | hsim
  · rw [hs] at hsim; norm_num at hsim
  · rw [hs] at hsim; norm_num at hsim

/-- The fuzzy-match step in the `Accept`-gated form: update exactly when
the (nonempty) name is accepted and strictly beats the running ratio. -/
theorem stepMatch_eq (st : String) (s : Option String × ℚ) (b : String) :
    stepMatch st s b =
      if b ≠ "" ∧ Accept st b ∧ s.2 < similar st b then (some b, similar st b) else s := by
  unfold stepMatch Accept
  by_cases hb : b = ""
  · rw [if_pos hb, if_neg (by simp [hb])]
  · rw [if_neg hb]
    by_cases ha : 1 ≤ tokenOverlap st b ∧ 6/10 < similar st b
    · rw [if_pos ha]
      by_cases hlt : s.2 < similar st b
      · rw [if_pos hlt, if_pos ⟨hb, Or.inl ha, hlt⟩]
      · rw [if_neg hlt, if_neg (fun h => hlt h.2.2)]
    · rw [if_neg ha]
      by_cases h2 : s.2 < similar st b ∧ 78/100 < similar st b
      · rw [if_pos h2, if_pos ⟨hb, Or.inr h2.2, h2.1⟩]
      · rw [if_neg h2, if_neg]
        rintro ⟨hb', hacc, hlt⟩
        rcases hacc with h | h
        · exact ha h
        · exact h2 ⟨hlt, h⟩

theorem matchFold_append (st : String) (ns : List String) (b : String) :
    matchFold st (ns ++ [b]) = stepMatch st (matchFold st ns) b := by
  unfold matchFold
  rw [List.foldl_append]
  rfl

/-- Full characterization of the fuzzy-match loop: a `none` result means
no nonempty name was accepted; a `some bm` result is a nonempty accepted
name realizing the maximal similarity, and every accepted name strictly
before its winning occurrence has strictly smaller similarity (so the
first of the best-tied names wins). -/
theorem matchFold_spec (st : String) (names : List String) :
    ((matchFold st names).1 = none →
      (matchFold st names).2 = 0 ∧ ∀ b ∈ names, b ≠ "" → ¬ Accept st b) ∧
    (∀ bm, (matchFold st names).1 = some bm →
      bm ∈ names ∧ bm ≠ "" ∧ Accept st bm ∧ (matchFold st names).2 = similar st bm ∧
      (∀ b ∈ names, b ≠ "" → Accept st b → similar st b ≤ (matchFold st names).2) ∧
      ∃ pre post, names = pre ++ bm :: post ∧
        ∀ b ∈ pre, b ≠ "" → Accept st b → similar st b < (matchFold st names).2) := by
  induction names using List.reverseRecOn with
  | nil =>
    constructor
    · intro _
      exact ⟨rfl, by intro b hb; simp at hb⟩
    · intro bm h
      simp only [matchFold, List.foldl_nil] at h
      exact absurd h (by simp)
  | append_singleton ns b ih =>
    rw [matchFold_append, stepMatch_eq]
    by_cases hc : b ≠ "" ∧ Accept st b ∧ (matchFold st ns).2 < similar st b
    · rw [if_pos hc]
      constructor
      · intro h; exact absurd h (by simp)
      · intro bm h
        simp only [Option.some.injEq] at h
        subst h
        refine ⟨List.mem_append_right _ (List.mem_singleton_self _), hc.1, hc.2.1, rfl, ?_, ?_⟩
        · intro b' hb' hne hacc
          rcases List.mem_append.mp hb' with h' | h'
          · rcases hml : (matchFold st ns).1 with _ | bm'
            · exact absurd hacc ((ih.1 hml).2 b' h' hne)
            · have := (ih.2 bm' hml).2.2.2.2.1 b' h' hne hacc
              exact le_of_lt (lt_of_le_of_lt this hc.2.2)
          · rw [List.mem_singleton.mp h']
        · refine ⟨ns, [], rfl, ?_⟩
          intro b' hb' hne hacc
          rcases hml : (matchFold st ns).1 with _ | bm'
          · exact absurd hacc ((ih.1 hml).2 b' hb' hne)
          · have := (ih.2 bm' hml).2.2.2.2.1 b' hb' hne hacc
            exact lt_of_le_of_lt this hc.2.2
    · rw [if_neg hc]
      constructor
      · intro hnone
        obtain ⟨hz, hnacc⟩ := ih.1 hnone
        refine ⟨hz, ?_⟩
        intro b' hb' hne hacc
        rcases List.mem_append.mp hb' with h' | h'
        · exact hnacc b' h' hne hacc
        · rw [List.mem_singleton.mp h'] at hne hacc
          apply hc
          refine ⟨hne, hacc, ?_⟩
          rw [hz]
          rcases hacc with ⟨_, hsim⟩ | hsim
          · linarith
          · linarith
      · intro bm h
        obtain ⟨hmem, hne, hacc, hsnd, hmax, pre, post, hsplit, hfirst⟩ := ih.2 bm h
        refine ⟨List.mem_append_left _ hmem, hne, hacc, hsnd, ?_, pre, post ++ [b], ?_, hfirst⟩
        · intro b' hb' hne' hacc'
          rcases List.mem_append.mp hb' with h' | h'
          · exact hmax b' h' hne' hacc'
          · rw [List.mem_singleton.mp h'] at hne' hacc' ⊢
            by_contra hlt
            push_neg at hlt
            exact hc ⟨hne', hacc', hlt⟩
        · rw [hsplit]
          simp

/-- C2: for a rail station with a (nonempty) name and any list of bus stop
names, the fuzzy-match loop returns no match exactly when no name is
accepted — where a name is accepted exactly when it shares a
case-insensitive token of length > 1 with similarity above 0.6, or has
similarity above 0.78 — and a returned match is an accepted name of
maximal similarity whose winning occurrence strictly beats every earlier
accepted name (first-encountered tie-breaking). -/
theorem claim_C2_match_gating (st : String) (hst : st ≠ "") (names : List String) :
    ((matchFold st names).1 = none ↔ ∀ b ∈ names, ¬ Accept st b) ∧
    (∀ bm, (matchFold st names).1 = some bm →
      bm ∈ names ∧ Accept st bm ∧ (matchFold st names).2 = similar st bm ∧
      (∀ b ∈ names, Accept st b → similar st b ≤ similar st bm) ∧
      ∃ pre post, names = pre ++ bm :: post ∧
        ∀ b ∈ pre, Accept st b → similar st b < similar st bm) := by
  have hspec := matchFold_spec st names
  constructor
  · constructor
    · intro hnone b hb hacc
      by_cases hbe : b = ""
      · exact accept_empty_right st hst (hbe ▸ hacc)
      · exact (hspec.1 hnone).2 b hb hbe hacc
    · intro hall
      rcases hml : (matchFold st names).1 with _ | bm
      · rfl
      · obtain ⟨hmem, _, hacc, _⟩ := hspec.2 bm hml
        exact absurd hacc (hall bm hmem)
  · intro bm hml
    obtain ⟨hmem, hne, hacc, hsnd, hmax, pre, post, hsplit, hfirst⟩ := hspec.2 bm hml
    refine ⟨hmem, hacc, hsnd, ?_, pre, post, hsplit, ?_⟩
    · intro b hb hacc'
      by_cases hbe : b = ""
      · exact absurd (hbe ▸ hacc') (accept_empty_right st hst)
      · exact hsnd ▸ hmax b hb hbe hacc'
    · intro b hb hacc'
      by_cases hbe : b = ""
      · exact absurd (hbe ▸ hacc') (accept_empty_right st hst)
      · exact hsnd ▸ hfirst b hb hbe hacc'

/-- C2 witness: for station name `"ab"` over the bus stop names
`["xy", "ab"]` the loop returns `"ab"`, which is accepted and carries its
similarity as the score. -/
theorem claim_C2_match_gating_witness :
    (matchFold "ab" ["xy", "ab"]).1 = some "ab" ∧ Accept "ab" "ab" ∧
    (matchFold "ab" ["xy", "ab"]).2 = similar "ab" "ab" := by
  have hsome : (matchFold "ab" ["xy", "ab"]).1 = some "ab" := by with_unfolding_all decide
  have h := (claim_C2_match_gating "ab" (by decide) ["xy", "ab"]).2 "ab" hsome
  exact ⟨hsome, h.2.1, h.2.2.1⟩

/-- C9 counterexample: the similarity measure of the source
(`SequenceMatcher` ratio of the lower-cased strings) is **not** symmetric:
`similar "tide" "diet" = 1/4` but `similar "diet" "tide" = 1/2`, although
both inputs are already case-folded. -/
theorem claim_C9_counterexample : similar "tide" "diet" ≠ similar "diet" "tide" := by
  with_unfolding_all decide

/-- C9 (amended): the similarity measure always lies in the range
`[0, 1]` (the symmetry half of the claim is refuted by
the `"tide"`/`"diet"` counterexample). -/
theorem claim_C9_range : ∀ a b : String, 0 ≤ similar a b ∧ similar a b ≤ 1 :=
  fun a b => ⟨similar_nonneg a b, similar_le_one a b⟩

theorem lookupNorm_eq_none (cols : List String) (k : String) :
    lookupNorm cols k = none ↔ ∀ c ∈ cols, normKey c ≠ k := by
  unfold lookupNorm
  rw [List.getLast?_eq_none_iff, List.filter_eq_nil_iff]
  constructor
  · intro h c hc hk
    exact h c hc (by simp [hk])
  · intro h c hc hk
    exact h c hc (by simpa using hk)

/-- C10 counterexample: the claim's in-particular clause fails — with the
candidate list `["stop id", "stopid"]` and a table containing **both** as
columns, the resolver returns `"stopid"`, not the earlier candidate
`"stop id"` (both normalize to the same key and the norm-map keeps the
last column); moreover an earlier candidate matching only by substring
loses to a later candidate with an exact match (`"stop"` would match
column `"stopx"` by substring, yet `"date"` is returned). -/
theorem claim_C10_counterexample :
    find_best_column ["stop id", "stopid"] ["stop id", "stopid"] = some "stopid" ∧
    "stopid" ≠ "stop id" ∧
    find_best_column ["stopx", "date"] ["stop", "date"] = some "date" ∧
    strContains (lowerStr "stopx") (lowerStr "stop") = true := by
  refine ⟨?_, by decide, ?_, ?_⟩ <;> with_unfolding_all decide

/-- C10 (amended): column resolution is a pure function of its inputs
(determinism is inherent in the embedding); it returns `none` exactly when
no candidate matches any column by normalized equality nor by
case-insensitive substring; earlier candidates take precedence over later
ones **within each tier** (the exact-match pass runs first over all
candidates, then the substring pass); and with candidate list `[a, b]` it
returns `a` whenever `a` is the unique column with its normalized key. -/
theorem claim_C10_resolution (cols cands : List String) :
    (find_best_column cols cands = none ↔
      ∀ cand ∈ cands, (∀ c ∈ cols, normKey c ≠ normKey cand) ∧
        ∀ c ∈ cols, ¬ strContains (lowerStr c) (lowerStr cand)) ∧
    (∀ pre cand post col, cands = pre ++ cand :: post →
      lookupNorm cols (normKey cand) = some col →
      (∀ c' ∈ pre, lookupNorm cols (normKey c') = none) →
      find_best_column cols cands = some col) ∧
    (∀ pre cand post col, cands = pre ++ cand :: post →
      (∀ c' ∈ cands, lookupNorm cols (normKey c') = none) →
      cols.find? (fun c => strContains (lowerStr c) (lowerStr cand)) = some col →
      (∀ c' ∈ pre, cols.find? (fun c => strContains (lowerStr c) (lowerStr c')) = none) →
      find_best_column cols cands = some col) ∧
    (∀ a b, cands = [a, b] → cols.filter (fun c => normKey c = normKey a) = [a] →
      find_best_column cols cands = some a) := by
  refine ⟨?_, ?_, ?_, ?_⟩
  · unfold find_best_column
    rcases h1 : cands.findSome? (fun cand => lookupNorm cols (normKey cand)) with _ | c
    · simp only []
      rw [List.findSome?_eq_none_iff]
      have hex : ∀ cand ∈ cands, lookupNorm cols (normKey cand) = none :=
        List.findSome?_eq_none_iff.mp h1
      constructor
      · intro hall cand hc
        refine ⟨(lookupNorm_eq_none cols (normKey cand)).mp (hex cand hc), ?_⟩
        intro c hcol hsub
        have := hall cand hc
        rw [List.find?_eq_none] at this
        exact this c hcol (by simpa using hsub)
      · intro hall cand hc
        rw [List.find?_eq_none]
        intro c hcol hsub
        exact (hall cand hc).2 c hcol (by simpa using hsub)
    · simp only []
      constructor
      · intro h; exact absurd h (by simp)
      · intro hall
        obtain ⟨cand, hc, hcand⟩ := List.exists_of_findSome?_eq_some h1
        have := (lookupNorm_eq_none cols (normKey cand)).mpr (hall cand hc).1
        rw [this] at hcand
        exact absurd hcand (by simp)
  · intro pre cand post col hsplit hcand hpre
    unfold find_best_column
    have h1 : cands.findSome? (fun cand => lookupNorm cols (normKey cand)) = some col := by
      rw [hsplit, List.findSome?_append, List.findSome?_eq_none_iff.mpr hpre,
        List.findSome?_cons, hcand]
      rfl
    rw [h1]
  · intro pre cand post col hsplit hall hfind hpre
    unfold find_best_column
    have h1 : cands.findSome? (fun cand => lookupNorm cols (normKey cand)) = none :=
      List.findSome?_eq_none_iff.mpr hall
    rw [h1]
    rw [hsplit, List.findSome?_append, List.findSome?_eq_none_iff.mpr hpre,
      List.findSome?_cons, hfind]
    rfl
  · intro a b hcands hfilter
    unfold find_best_column
    have ha : lookupNorm cols (normKey a) = some a := by
      unfold lookupNorm
      rw [hfilter]
      rfl
    rw [hcands, List.findSome?_cons, ha]

/-- C10 witness: with columns `["stop", "boardings"]` and candidate list
`["stop", "boardings"]`, the resolver returns `"stop"`. -/
theorem claim_C10_resolution_witness :
    find_best_column ["stop", "boardings"] ["stop", "boardings"] = some "stop" :=
  (claim_C10_resolution ["stop", "boardings"] ["stop", "boardings"]).2.2.2 "stop" "boardings"
    rfl (by with_unfolding_all decide)

/-- C4: the code slip behind the "degenerate gracefully" clause.  For a
rail table with stop and boardings columns but no resolvable date column,
the source synthesizes an all-`NaT` date column and then groups by
`[date, stop]`; pandas drops every row whose grouping key contains `NaT`,
so the table contributes **zero** per-stop figures — here a table with one
fully populated row (stop `A01`, boardings `100`) yields `some []`
(processed, not skipped, but empty) for every date parser. -/
theorem claim_C4_dateless_table :
    find_best_column ["stop", "boardings"] dateCandidates = none ∧
    find_best_column ["stop", "boardings"] stopCandidates = some "stop" ∧
    find_best_column ["stop", "boardings"] boardCandidates = some "boardings" ∧
    getCell [("stop", CellVal.str "A01"), ("boardings", CellVal.num 100)] "stop" ≠
      CellVal.missing ∧
    getCell [("stop", CellVal.str "A01"), ("boardings", CellVal.num 100)] "boardings" ≠
      CellVal.missing ∧
    ∀ pd : CellVal → Option String,
      processRailTable pd
        ⟨["stop", "boardings"], [[("stop", CellVal.str "A01"), ("boardings", CellVal.num 100)]]⟩ =
        some [] := by
  refine ⟨?_, ?_, ?_, ?_, ?_, ?_⟩
  · with_unfolding_all decide
  · with_unfolding_all decide
  · with_unfolding_all decide
  · with_unfolding_all decide
  · with_unfolding_all decide
  · intro pd
    with_unfolding_all rfl

theorem yearEntry_eq_none_iff (pd : CellVal → Option String) (t : RailTable) :
    yearEntry pd t = none ↔ processRailTable pd t = none := by
  unfold yearEntry
  cases hs : find_best_column t.cols stopCandidates with
  | none =>
    constructor
    · intro _
      unfold processRailTable
      rw [hs]
    · intro _
      rfl
  | some sc =>
    cases hp : processRailTable pd t with
    | none => simp
    | some ys => simp

/-- C5 (amended): a table with no resolvable stop or boardings column is
skipped (`processRailTable` yields `none`); a readable table whose
resolved columns collide dies inside the per-table `try/except` and
likewise contributes `none`; a contributing-nothing input (missing,
unreadable, skipped, or aggregation-failed) never disturbs the processing
of the remaining files; and the run aborts with the no-usable-data error
exactly when every input file is missing/unreadable or its table
contributed nothing. -/
theorem claim_C5_skip_and_abort (pd : CellVal → Option String) :
    (∀ t : RailTable,
      (find_best_column t.cols stopCandidates = none ∨
        find_best_column t.cols boardCandidates = none) →
      processRailTable pd t = none) ∧
    (∀ (t : RailTable) (sc bc : String),
      find_best_column t.cols stopCandidates = some sc →
      find_best_column t.cols boardCandidates = some bc →
      aggRaises (find_best_column t.cols dateCandidates) sc bc = true →
      processRailTable pd t = none) ∧
    (∀ (xs ys : List (Option RailTable)) (b : Option RailTable),
      (b = none ∨ ∃ t, b = some t ∧ processRailTable pd t = none) →
      year_station_dfs pd (xs ++ b :: ys) = year_station_dfs pd (xs ++ ys)) ∧
    (∀ files : List (Option RailTable),
      abortsRun pd files = true ↔
        ∀ f ∈ files, f = none ∨ ∃ t, f = some t ∧ processRailTable pd t = none) := by
  refine ⟨?_, ?_, ?_, ?_⟩
  · intro t h
    rcases hs : find_best_column t.cols stopCandidates with _ | sc
    · unfold processRailTable
      rw [hs]
    · rcases hb : find_best_column t.cols boardCandidates with _ | bc
      · unfold processRailTable
        rw [hs, hb]
      · rw [hs, hb] at h
        rcases h with h | h <;> exact absurd h (by simp)
  · intro t sc bc hs hb hr
    unfold processRailTable
    rw [hs, hb]
    show (if aggRaises (find_best_column t.cols dateCandidates) sc bc then none
      else some (railFigures pd t sc bc)) = none
    rw [hr]
    rfl
  · intro xs ys b hb
    unfold year_station_dfs
    rw [List.filterMap_append, List.filterMap_append]
    congr 1
    rcases hb with rfl | ⟨t, rfl, ht⟩
    · rfl
    · rw [List.filterMap_cons]
      have h0 : yearEntry pd t = none := (yearEntry_eq_none_iff pd t).mpr ht
      simp only [Option.some_bind, h0]
  · intro files
    have hnil : (year_station_dfs pd files = []) ↔
        ∀ f ∈ files, f = none ∨ ∃ t, f = some t ∧ processRailTable pd t = none := by
      unfold year_station_dfs
      rw [List.filterMap_eq_nil_iff]
      constructor
      · intro h f hf
        rcases f with _ | t
        · exact Or.inl rfl
        · refine Or.inr ⟨t, rfl, (yearEntry_eq_none_iff pd t).mp ?_⟩
          simpa using h (some t) hf
      · intro h f hf
        rcases h f hf with rfl | ⟨t, rfl, ht⟩
        · rfl
        · simpa using (yearEntry_eq_none_iff pd t).mpr ht
    unfold abortsRun
    rw [Bool.or_eq_true, Bool.not_eq_true', List.any_eq_false, List.isEmpty_iff, hnil]
    constructor
    · rintro (h | h)
      · intro f hf
        rcases f with _ | t
        · exact Or.inl rfl
        · exact absurd (by simp : (some t).isSome = true) (by simpa using h (some t) hf)
      · exact h
    · intro h
      exact Or.inr h

/-- C5 counterexample to the original abort clause: a readable table whose
sole column `"stop_boardings"` resolves as **both** the stop and the
boardings column is neither unreadable nor skipped for missing required
columns, yet its aggregation raises (`reset_index` name collision), no
year summary is appended, and a run consisting of just this table
aborts. -/
theorem claim_C5_counterexample :
    find_best_column ["stop_boardings"] stopCandidates = some "stop_boardings" ∧
    find_best_column ["stop_boardings"] boardCandidates = some "stop_boardings" ∧
    ∀ pd : CellVal → Option String,
      abortsRun pd [some ⟨["stop_boardings"], [[("stop_boardings", CellVal.num 5)]]⟩] =
        true := by
  refine ⟨?_, ?_, ?_⟩
  · with_unfolding_all decide
  · with_unfolding_all decide
  · intro pd
    with_unfolding_all rfl

/-- C5 witness: the colliding `"stop_boardings"` table drops out of the
fold without disturbing the valid `["stop", "boardings"]` table; a run
consisting of a missing file and a table whose only column is `"x"`
(skipped) aborts. -/
theorem claim_C5_skip_and_abort_witness :
    year_station_dfs (fun _ => none)
        [some ⟨["stop_boardings"], []⟩, some ⟨["stop", "boardings"], []⟩] =
      year_station_dfs (fun _ => none) [some ⟨["stop", "boardings"], []⟩] ∧
    abortsRun (fun _ => none) [none, some ⟨["x"], []⟩] = true := by
  constructor
  · exact (claim_C5_skip_and_abort (fun _ => none)).2.2.1 [] [some ⟨["stop", "boardings"], []⟩]
      (some ⟨["stop_boardings"], []⟩)
      (Or.inr ⟨⟨["stop_boardings"], []⟩, rfl, by with_unfolding_all decide⟩)
  · refine ((claim_C5_skip_and_abort (fun _ => none)).2.2.2 [none, some ⟨["x"], []⟩]).mpr ?_
    intro f hf
    rcases List.mem_cons.mp hf with rfl | hf2
    · exact Or.inl rfl
    · rcases List.mem_cons.mp hf2 with rfl | h3
      · exact Or.inr ⟨_, rfl, by with_unfolding_all decide⟩
      · simp at h3

theorem find?_eq_self_of_mem {α : Type} [DecidableEq α] (l : List α) (s : α) (h : s ∈ l) :
    l.find? (fun x => x = s) = some s := by
  induction l with
  | nil => simp at h
  | cons a l ih =>
    by_cases ha : a = s
    · subst ha
      simp [List.find?_cons]
    · have hd : (decide (a = s)) = false := by simpa using ha
      rw [List.find?_cons, hd]
      exact ih (by
        rcases List.mem_cons.mp h with h' | h'
        · exact absurd h'.symm ha
        · exact h')

theorem filter_eq_toList_find? (s : CellVal) :
    ∀ ys : List (CellVal × ℚ), (ys.map (fun p => p.1)).Nodup →
      ys.filter (fun p => p.1 = s) = ((ys.find? (fun p => p.1 = s))).toList := by
  intro ys
  induction ys with
  | nil => intro _; rfl
  | cons p ys ih =>
    intro hn
    rw [List.map_cons, List.nodup_cons] at hn
    by_cases hp : p.1 = s
    · have hd : (decide (p.1 = s)) = true := by simpa using hp
      have hempty : ys.filter (fun q => q.1 = s) = [] := by
        rw [List.filter_eq_nil_iff]
        intro q hq
        simp only [decide_eq_true_eq]
        intro hqs
        exact hn.1 (hp ▸ hqs ▸ List.mem_map_of_mem (fun r => r.1) hq)
      simp [List.filter_cons, List.find?_cons, hd, hempty]
    · have hd : (decide (p.1 = s)) = false := by simpa using hp
      simp only [List.filter_cons, List.find?_cons, hd, if_false, Bool.false_eq_true]
      exact ih hn.2

theorem filterMap_eq_flatten_toList {α β : Type} (f : α → Option β) (l : List α) :
    l.filterMap f = (l.map (fun a => (f a).toList)).flatten := by
  induction l with
  | nil => rfl
  | cons a l ih =>
    rw [List.filterMap_cons, List.map_cons, List.flatten_cons]
    rcases h : f a with _ | b
    · simpa using ih
    · simp only [Option.toList_some, List.singleton_append]
      rw [ih]

theorem processRailTable_eq_some (pd : CellVal → Option String) (t : RailTable)
    (ys : List (CellVal × ℚ)) (h : processRailTable pd t = some ys) :
    ∃ sc bc : String, find_best_column t.cols stopCandidates = some sc ∧
      find_best_column t.cols boardCandidates = some bc ∧
      aggRaises (find_best_column t.cols dateCandidates) sc bc = false ∧
      ys = railFigures pd t sc bc := by
  cases hs : find_best_column t.cols stopCandidates with
  | none =>
    unfold processRailTable at h
    rw [hs] at h
    exact absurd h (by simp)
  | some sc =>
    cases hb : find_best_column t.cols boardCandidates with
    | none =>
      unfold processRailTable at h
      rw [hs, hb] at h
      exact absurd h (by simp)
    | some bc =>
      unfold processRailTable at h
      rw [hs, hb] at h
      change (if aggRaises (find_best_column t.cols dateCandidates) sc bc then none
        else some (railFigures pd t sc bc)) = some ys at h
      cases hag : aggRaises (find_best_column t.cols dateCandidates) sc bc with
      | true =>
        rw [hag] at h
        exact absurd h (by simp)
      | false =>
        rw [hag] at h
        simp only [Bool.false_eq_true, if_false, Option.some.injEq] at h
        exact ⟨sc, bc, rfl, rfl, hag, h.symm⟩

theorem groupMeanByStop_find? (yss : List (List (CellVal × ℚ))) (s : CellVal)
    (hnod : ∀ ys ∈ yss, (ys.map (fun p => p.1)).Nodup) :
    (yss.filterMap (fun ys => (ys.find? (fun p => p.1 = s)).map (fun p => p.2)) = [] →
      (groupMeanByStop yss).find? (fun p => p.1 = s) = none) ∧
    (yss.filterMap (fun ys => (ys.find? (fun p => p.1 = s)).map (fun p => p.2)) ≠ [] →
      (groupMeanByStop yss).find? (fun p => p.1 = s) =
        some (s, ratMean
          (yss.filterMap (fun ys => (ys.find? (fun p => p.1 = s)).map (fun p => p.2))))) := by
    have hfigs : ((yss.flatten.filter (fun p => p.1 = s)).map (fun p => p.2)) =
        yss.filterMap (fun ys => (ys.find? (fun p => p.1 = s)).map (fun p => p.2)) := by
      rw [List.filter_flatten, List.map_flatten, List.map_map, filterMap_eq_flatten_toList]
      congr 1
      apply List.map_congr_left
      intro ys hys
      simp only [Function.comp]
      rw [filter_eq_toList_find? s ys (hnod ys hys)]
      rcases hfq : ys.find? (fun p => p.1 = s) with _ | q
      · rw [hfq]; rfl
      · rw [hfq]; rfl
    have hmem : (s ∈ yss.flatten.map (fun p => p.1)) ↔
        yss.filterMap (fun ys => (ys.find? (fun p => p.1 = s)).map (fun p => p.2)) ≠ [] := by
      rw [← hfigs]
      constructor
      · intro hm hnil
        obtain ⟨p, hp, hps⟩ := List.mem_map.mp hm
        have hpf : p ∈ yss.flatten.filter (fun p => p.1 = s) :=
          List.mem_filter.mpr ⟨hp, by simpa using hps⟩
        rw [List.map_eq_nil_iff] at hnil
        rw [hnil] at hpf
        simp at hpf
      · intro hne
        by_contra hnm
        apply hne
        rw [List.map_eq_nil_iff, List.filter_eq_nil_iff]
        intro p hp
        simp only [decide_eq_true_eq]
        intro hps
        exact hnm (List.mem_map.mpr ⟨p, hp, hps⟩)
    constructor
    · intro hempty
      unfold groupMeanByStop
      rw [List.find?_map]
      have hnm : s ∉ uniqueFirst (yss.flatten.map (fun p => p.1)) := by
        rw [mem_uniqueFirst]
        rw [hmem]
        exact fun hc => hc hempty
      have : (uniqueFirst (yss.flatten.map (fun p => p.1))).find?
          ((fun p => decide (p.1 = s)) ∘ fun s' =>
            (s', ratMean ((yss.flatten.filter (fun p => p.1 = s')).map (fun p => p.2)))) = none := by
        rw [List.find?_eq_none]
        intro x hx
        simp only [Function.comp, decide_eq_true_eq]
        intro hxs
        exact hnm (hxs ▸ hx)
      rw [this]
      rfl
    · intro hne
      unfold groupMeanByStop
      rw [List.find?_map]
      have hsm : s ∈ uniqueFirst (yss.flatten.map (fun p => p.1)) := by
        rw [mem_uniqueFirst, hmem]
        exact hne
      have hfind : (uniqueFirst (yss.flatten.map (fun p => p.1))).find?
          ((fun p => decide (p.1 = s)) ∘ fun s' =>
            (s', ratMean ((yss.flatten.filter (fun p => p.1 = s')).map (fun p => p.2)))) =
          some s := by
        have := find?_eq_self_of_mem _ s hsm
        rw [← this]
        rfl
      rw [hfind]
      rw [Option.map_some']
      rw [hfigs]

/-- C6 counterexample: two readable, fully populated tables carry station
`A01` with yearly figures 100 and 300, but under differently named stop
columns (`stop_id` and `station_id`).  The combination groups by the
first summary's column name, so the second table's figure is silently
dropped: the result is 100, not the claimed mean-over-containing-tables
200. -/
theorem claim_C6_counterexample :
    year_station_dfs (fun c => match c with | CellVal.str s => some s | _ => none)
        [some ⟨["date", "stop_id", "avg_boardings"],
          [[("date", CellVal.str "d"), ("stop_id", CellVal.str "A01"),
            ("avg_boardings", CellVal.num 100)]]⟩,
         some ⟨["date", "station_id", "avg_boardings"],
          [[("date", CellVal.str "d"), ("station_id", CellVal.str "A01"),
            ("avg_boardings", CellVal.num 300)]]⟩] =
      [("stop_id", [(CellVal.str "A01", 100)]),
       ("station_id", [(CellVal.str "A01", 300)])] ∧
    combineYears
        [("stop_id", [(CellVal.str "A01", 100)]),
         ("station_id", [(CellVal.str "A01", 300)])] =
      [(CellVal.str "A01", 100)] ∧
    ratMean [100, 300] = 200 ∧ (100 : ℚ) ≠ 200 := by
  refine ⟨?_, ?_, ?_, ?_⟩
  · with_unfolding_all decide
  · with_unfolding_all decide
  · with_unfolding_all decide
  · with_unfolding_all decide

/-- C6 (amended): per-table outputs have pairwise-distinct stop keys, and
the multi-year combination groups the concatenated summaries by the
**first** summary's stop column name: a stop id receives the arithmetic
mean of its figures from exactly the summaries sharing that column name
and containing the stop; summaries under a different stop column name are
silently excluded, and a stop appearing in no same-named summary is
absent. -/
theorem claim_C6_multiyear_mean :
    (∀ (pd : CellVal → Option String) (t : RailTable) (ys : List (CellVal × ℚ)),
      processRailTable pd t = some ys → (ys.map (fun p => p.1)).Nodup) ∧
    (∀ (k : String) (ys0 : List (CellVal × ℚ)) (rest : List (String × List (CellVal × ℚ)))
        (s : CellVal),
      (∀ p ∈ (k, ys0) :: rest, (p.2.map (fun q => q.1)).Nodup) →
      (((((k, ys0) :: rest).filter (fun p => p.1 = k)).map (fun p => p.2)).filterMap
          (fun ys => (ys.find? (fun p => p.1 = s)).map (fun p => p.2)) = [] →
        (combineYears ((k, ys0) :: rest)).find? (fun p => p.1 = s) = none) ∧
      (((((k, ys0) :: rest).filter (fun p => p.1 = k)).map (fun p => p.2)).filterMap
          (fun ys => (ys.find? (fun p => p.1 = s)).map (fun p => p.2)) ≠ [] →
        (combineYears ((k, ys0) :: rest)).find? (fun p => p.1 = s) =
          some (s, ratMean
            (((((k, ys0) :: rest).filter (fun p => p.1 = k)).map (fun p => p.2)).filterMap
              (fun ys => (ys.find? (fun p => p.1 = s)).map (fun p => p.2)))))) := by
  constructor
  · intro pd t ys h
    obtain ⟨sc, bc, hs, hb, hag, hys⟩ := processRailTable_eq_some pd t ys h
    subst hys
    unfold railFigures
    rw [List.map_map]
    show ((uniqueFirst _).map (fun s => s)).Nodup
    rw [List.map_id']
    exact nodup_uniqueFirst _
  · intro k ys0 rest s hnod
    have hnod2 : ∀ ys ∈ (((k, ys0) :: rest).filter (fun p => p.1 = k)).map (fun p => p.2),
        (ys.map (fun p => p.1)).Nodup := by
      intro ys hys
      obtain ⟨p, hp, hpy⟩ := List.mem_map.mp hys
      exact hpy ▸ hnod p (List.mem_of_mem_filter hp)
    have hc : combineYears ((k, ys0) :: rest) =
        groupMeanByStop ((((k, ys0) :: rest).filter (fun p => p.1 = k)).map (fun p => p.2)) :=
      rfl
    rw [hc]
    exact groupMeanByStop_find? _ s hnod2

/-- C6 witness: three summaries sharing the stop column name `stop_id`
carry yearly figures 100, 200 and 300 for station `A01`; they combine to
exactly 200. -/
theorem claim_C6_multiyear_mean_witness :
    (combineYears [("stop_id", [(CellVal.str "A01", 100)]),
      ("stop_id", [(CellVal.str "A01", 200)]),
      ("stop_id", [(CellVal.str "A01", 300)])]).find? (fun p => p.1 = CellVal.str "A01") =
      some (CellVal.str "A01", 200) := by
  have h := ((claim_C6_multiyear_mean.2 "stop_id" [(CellVal.str "A01", 100)]
    [("stop_id", [(CellVal.str "A01", 200)]), ("stop_id", [(CellVal.str "A01", 300)])]
    (CellVal.str "A01") (by intro p hp; fin_cases hp <;> simp)).2 (by with_unfolding_all decide))
  rw [h]
  have hf : (((([(("stop_id" : String), [(CellVal.str "A01", (100 : ℚ))]),
        ("stop_id", [(CellVal.str "A01", 200)]),
        ("stop_id", [(CellVal.str "A01", 300)])].filter
          (fun p => p.1 = "stop_id")).map (fun p => p.2)).filterMap
        (fun ys => (ys.find? (fun p => p.1 = CellVal.str "A01")).map (fun p => p.2)))) =
      [100, 200, 300] := by
    with_unfolding_all decide
  rw [hf]
  have hm : ratMean [100, 200, 300] = 200 := by
    with_unfolding_all decide
  rw [hm]

theorem busAgg_find? (obs : List BusObs) (a : String × ℚ × ℚ × ℚ)
    (h : a ∈ busAgg obs) :
    a.2.1 = ratMean ((obs.filter (fun o => o.stop = a.1)).map (fun o => o.lat)) ∧
    a.2.2.1 = ratMean ((obs.filter (fun o => o.stop = a.1)).map (fun o => o.lon)) := by
  unfold busAgg at h
  obtain ⟨s', _, hg⟩ := List.mem_map.mp h
  subst hg
  exact ⟨rfl, rfl⟩

/-- C3: every geocoded rail station in `rail_locations` carries an
accepted fuzzy match, its exact similarity score, and coordinates equal
to the pre-aggregated mean latitude/longitude of its matched bus stop
name; a station whose name has no accepted candidate is absent; and the
gap analysis only ever names rail stations from that geocoded list. -/
theorem claim_C3_no_guessed_coords (stations : List (CellVal × String × ℚ))
    (obs : List BusObs) :
    (∀ e ∈ locate stations obs,
      Accept e.name e.matched ∧
      e.score = similar e.name e.matched ∧
      e.matched ∈ (busAgg obs).map (fun a => a.1) ∧
      e.lat = ratMean ((obs.filter (fun o => o.stop = e.matched)).map (fun o => o.lat)) ∧
      e.lon = ratMean ((obs.filter (fun o => o.stop = e.matched)).map (fun o => o.lon))) ∧
    (∀ sid name avg, (sid, name, avg) ∈ stations →
      (∀ b ∈ (busAgg obs).map (fun a => a.1), ¬ Accept name b) →
      ∀ e ∈ locate stations obs, e.name ≠ name) ∧
    (∀ (dist : ℚ → ℚ → ℚ → ℚ → ℚ) (hs : List Hotspot) (minB minD : ℚ)
      (c : Candidate) (n : String),
      c ∈ findGaps dist hs (locate stations obs) minB minD → c.nearestRail = some n →
      n ∈ (locate stations obs).map (fun e => e.name)) := by
  have hmain : ∀ e ∈ locate stations obs,
      Accept e.name e.matched ∧
      e.score = similar e.name e.matched ∧
      e.matched ∈ (busAgg obs).map (fun a => a.1) ∧
      e.lat = ratMean ((obs.filter (fun o => o.stop = e.matched)).map (fun o => o.lat)) ∧
      e.lon = ratMean ((obs.filter (fun o => o.stop = e.matched)).map (fun o => o.lon)) := by
    intro e he
    unfold locate at he
    obtain ⟨s, _, hfs⟩ := List.mem_filterMap.mp he
    split at hfs
    · rename_i bm r hm
      split at hfs
      · rename_i a ha
        simp only [Option.some.injEq] at hfs
        have hfst : (matchFold s.2.1 ((busAgg obs).map (fun a => a.1))).1 = some bm := by
          rw [hm]
        have hsnd : (matchFold s.2.1 ((busAgg obs).map (fun a => a.1))).2 = r := by
          rw [hm]
        obtain ⟨hmem, hne, hacc, hsc, _, _⟩ :=
          (matchFold_spec s.2.1 ((busAgg obs).map (fun a => a.1))).2 bm hfst
        have hr : r = similar s.2.1 bm := by rw [← hsnd, hsc]
        have hamem : a ∈ busAgg obs := List.mem_of_find?_eq_some ha
        have hafst : a.1 = bm := by simpa using List.find?_some ha
        obtain ⟨hlat, hlon⟩ := busAgg_find? obs a hamem
        subst hfs
        refine ⟨hacc, hr, hmem, ?_, ?_⟩
        · simpa [hafst] using hlat
        · simpa [hafst] using hlon
      · simp at hfs
    · simp at hfs
  refine ⟨hmain, ?_, ?_⟩
  · intro sid name avg _ hnone e he hename
    obtain ⟨hacc, _, hmem, _, _⟩ := hmain e he
    rw [hename] at hacc
    exact hnone e.matched hmem hacc
  · intro dist hs minB minD c n hc hnr
    obtain ⟨b, _, hgc⟩ := List.mem_filterMap.mp hc
    unfold gapCandidate at hgc
    by_cases hcond : minB ≤ b.boardings ∧
        farEnough minD (nearestRail dist b.latR b.lonR (locate stations obs))
    · rw [if_pos hcond] at hgc
      simp only [Option.some.injEq] at hgc
      subst hgc
      simp only [] at hnr
      obtain ⟨pr, hpr, hprn⟩ := Option.map_eq_some'.mp hnr
      have hmemr : ∀ (rails : List RailLoc) (acc : Option (String × ℚ)) (pr' : String × ℚ),
          rails.foldl (fun acc r =>
            match acc with
            | none => some (r.name, dist b.lonR b.latR r.lon r.lat)
            | some pr₀ =>
              if dist b.lonR b.latR r.lon r.lat < pr₀.2 then
                some (r.name, dist b.lonR b.latR r.lon r.lat)
              else acc) acc = some pr' →
          acc = some pr' ∨ pr'.1 ∈ rails.map (fun e => e.name) := by
        intro rails
        induction rails with
        | nil => intro acc pr' h; exact Or.inl h
        | cons r rails ih =>
          intro acc pr' h
          rw [List.foldl_cons] at h
          rcases ih _ pr' h with h' | h'
          · split at h'
            · simp only [Option.some.injEq] at h'
              right
              rw [List.map_cons, ← h']
              exact List.mem_cons_self _ _
            · split at h'
              · simp only [Option.some.injEq] at h'
                right
                rw [List.map_cons, ← h']
                exact List.mem_cons_self _ _
              · exact Or.inl h'
          · right
            rw [List.map_cons]
            exact List.mem_cons_of_mem _ h'
      have := hmemr (locate stations obs) none pr hpr
      rcases this with h' | h'
      · exact absurd h' (by simp)
      · exact hprn ▸ h'
    · rw [if_neg hcond] at hgc
      exact absurd hgc (by simp)

/-- C3 witness: one station named `"ab"` and two observations of a bus
stop `"ab"` at (10, 20) and (30, 40): the geocoded entry is accepted,
scored, and placed at the mean (20, 30). -/
theorem claim_C3_no_guessed_coords_witness :
    Accept (RailLoc.name ⟨CellVal.str "B03", "ab", 400, 20, 30, "ab", 1⟩)
      (RailLoc.matched ⟨CellVal.str "B03", "ab", 400, 20, 30, "ab", 1⟩) ∧
    RailLoc.lat ⟨CellVal.str "B03", "ab", 400, 20, 30, "ab", 1⟩ =
      ratMean (([⟨"ab", 10, 20, 50, "r1"⟩, ⟨"ab", 30, 40, 70, "r1"⟩] : List BusObs).filter
        (fun o => o.stop = "ab") |>.map (fun o => o.lat)) := by
  have hin : (⟨CellVal.str "B03", "ab", 400, 20, 30, "ab", 1⟩ : RailLoc) ∈
      locate [(CellVal.str "B03", "ab", 400)]
        [⟨"ab", 10, 20, 50, "r1"⟩, ⟨"ab", 30, 40, 70, "r1"⟩] := by
    with_unfolding_all decide
  have h := (claim_C3_no_guessed_coords [(CellVal.str "B03", "ab", 400)]
    [⟨"ab", 10, 20, 50, "r1"⟩, ⟨"ab", 30, 40, 70, "r1"⟩]).1 _ hin
  exact ⟨h.1, h.2.2.2.1⟩

/-- C7 counterexample: two observations in the same rounded cell with
stop names `"B"` (first encountered) then `"A"`, one occurrence each: the
representative label is `"A"` — `Series.mode` returns the tied names in
sorted order and `iat[0]` picks the smallest — not the first-encountered
`"B"` required by the claim. -/
theorem claim_C7_counterexample :
    cluster [⟨"B", 1, 2, 60, "r1"⟩, ⟨"A", 1, 2, 70, "r2"⟩] 4 100 =
      [⟨1, 2, 130, "A", "r1, r2"⟩] ∧ ("A" : String) ≠ "B" := by
  constructor
  · with_unfolding_all decide
  · decide

/-- C7 (amended): the clusterer groups by the pair of coordinates rounded
to `dec` decimals; each retained hotspot carries the group's summed
boardings (at least `minB`), the representative stop name — the most
frequent name with ties broken by *sorted order* (smallest tied name), as
`Series.mode().iat[0]` does — and the first five distinct routes in
first-seen order; and every observation whose cell reaches `minB` summed
boardings yields a hotspot for its cell. -/
theorem claim_C7_cluster (obs : List BusObs) (dec : Nat) (minB : ℚ) :
    (∀ h ∈ cluster obs dec minB,
      minB ≤ h.boardings ∧
      h.boardings = ((obs.filter (fun o =>
        roundq dec o.lat = h.latR ∧ roundq dec o.lon = h.lonR)).map (fun o => o.board)).sum ∧
      h.repStop = modeRep ((obs.filter (fun o =>
        roundq dec o.lat = h.latR ∧ roundq dec o.lon = h.lonR)).map (fun o => o.stop)) ∧
      h.routes = String.intercalate ", " ((uniqueFirst ((obs.filter (fun o =>
        roundq dec o.lat = h.latR ∧ roundq dec o.lon = h.lonR)).map
          (fun o => o.route))).take 5)) ∧
    (∀ o ∈ obs,
      minB ≤ ((obs.filter (fun o' =>
        roundq dec o'.lat = roundq dec o.lat ∧ roundq dec o'.lon = roundq dec o.lon)).map
          (fun o' => o'.board)).sum →
      ∃ h ∈ cluster obs dec minB,
        h.latR = roundq dec o.lat ∧ h.lonR = roundq dec o.lon) := by
  have hkey : ∀ k : ℚ × ℚ, ∀ l : List BusObs,
      l.filter (fun o => (roundq dec o.lat, roundq dec o.lon) = k) =
      l.filter (fun o => roundq dec o.lat = k.1 ∧ roundq dec o.lon = k.2) := by
    intro k l
    apply List.filter_congr
    intro o _
    simp [Prod.ext_iff]
  constructor
  · intro h hmem
    unfold cluster at hmem
    rw [List.mem_filter] at hmem
    obtain ⟨hmap, hge⟩ := hmem
    obtain ⟨k, _, hk⟩ := List.mem_map.mp hmap
    have hge' : minB ≤ h.boardings := by simpa using hge
    refine ⟨hge', ?_, ?_, ?_⟩
    · rw [← hk]
      simp only []
      rw [hkey]
    · rw [← hk]
      simp only []
      rw [hkey]
    · rw [← hk]
      simp only []
      rw [hkey]
  · intro o ho hge
    unfold cluster
    refine ⟨_, List.mem_filter.mpr ⟨List.mem_map.mpr
      ⟨(roundq dec o.lat, roundq dec o.lon), ?_, rfl⟩, ?_⟩, rfl, rfl⟩
    · rw [mem_uniqueFirst]
      exact List.mem_map.mpr ⟨o, ho, rfl⟩
    · simp only [decide_eq_true_eq]
      rw [hkey]
      exact hge

/-- C7 witness: the spec's 4-decimal rounding merges `38.90001` with
`38.90004` (both round to `38.9`) while `38.91` stays apart, and on a
three-observation input (two in one cell summing to 130, one alone at
200, threshold 100) the qualifying cell of the first observation yields a
hotspot. -/
theorem claim_C7_cluster_witness :
    roundq 4 (38.90001 : ℚ) = roundq 4 (38.90004 : ℚ) ∧
    roundq 4 (38.90001 : ℚ) = 38.9 ∧
    roundq 4 (38.91 : ℚ) ≠ roundq 4 (38.90001 : ℚ) ∧
    ∃ h ∈ cluster [⟨"s1", 1, 2, 60, "r1"⟩, ⟨"s1", 1, 2, 70, "r2"⟩,
        ⟨"s3", 3, 4, 200, "r3"⟩] 4 100,
      h.latR = roundq 4 (1 : ℚ) ∧ h.lonR = roundq 4 (2 : ℚ) := by
  refine ⟨by with_unfolding_all decide, by with_unfolding_all decide,
    by with_unfolding_all decide, ?_⟩
  exact (claim_C7_cluster [⟨"s1", 1, 2, 60, "r1"⟩, ⟨"s1", 1, 2, 70, "r2"⟩,
      ⟨"s3", 3, 4, 200, "r3"⟩] 4 100).2
    ⟨"s1", 1, 2, 60, "r1"⟩ (List.mem_cons_self _ _)
    (by with_unfolding_all decide)

theorem nearestRail_snd (dist : ℚ → ℚ → ℚ → ℚ → ℚ) (la lo : ℚ) (rails : List RailLoc) :
    (nearestRail dist la lo rails).map (fun pr => pr.2) =
      (rails.map (fun r => dist lo la r.lon r.lat)).min? := by
  have hgo : ∀ (rs : List RailLoc) (n0 : String) (d0 : ℚ),
      ((rs.foldl (fun acc r =>
        match acc with
        | none => some (r.name, dist lo la r.lon r.lat)
        | some pr =>
          if dist lo la r.lon r.lat < pr.2 then some (r.name, dist lo la r.lon r.lat)
          else acc) (some (n0, d0))).map (fun pr => pr.2)) =
      some (rs.foldl (fun m r => min m (dist lo la r.lon r.lat)) d0) := by
    intro rs
    induction rs with
    | nil => intro n0 d0; rfl
    | cons r rs ih =>
      intro n0 d0
      rw [List.foldl_cons, List.foldl_cons]
      have hstep : (match some (n0, d0) with
          | none => some (r.name, dist lo la r.lon r.lat)
          | some pr =>
            if dist lo la r.lon r.lat < pr.2 then some (r.name, dist lo la r.lon r.lat)
            else some (n0, d0)) =
          if dist lo la r.lon r.lat < d0 then some (r.name, dist lo la r.lon r.lat)
          else some (n0, d0) := rfl
      rw [hstep]
      by_cases hd : dist lo la r.lon r.lat < d0
      · rw [if_pos hd, ih, min_eq_right (le_of_lt hd)]
      · rw [if_neg hd, ih, min_eq_left (le_of_not_lt hd)]
  cases rails with
  | nil => rfl
  | cons r rs =>
    unfold nearestRail
    rw [List.foldl_cons]
    have hstep : (match (none : Option (String × ℚ)) with
        | none => some (r.name, dist lo la r.lon r.lat)
        | some pr =>
          if dist lo la r.lon r.lat < pr.2 then some (r.name, dist lo la r.lon r.lat)
          else none) = some (r.name, dist lo la r.lon r.lat) := rfl
    rw [hstep, hgo]
    show _ = ((r :: rs).map (fun r => dist lo la r.lon r.lat)).min?
    rw [List.map_cons]
    have hmin : ((dist lo la r.lon r.lat) :: rs.map (fun r => dist lo la r.lon r.lat)).min? =
        some ((rs.map (fun r => dist lo la r.lon r.lat)).foldl min (dist lo la r.lon r.lat)) :=
      rfl
    rw [hmin, List.foldl_map]

/-- C1: a hotspot becomes a candidate exactly when its boardings reach
`candidateMinBoardings` and either there is no geocoded rail station at
all or the minimum distance to the geocoded rail stations strictly
exceeds `minDistanceMiles`; with no rail stations, a qualifying hotspot's
candidate row carries no nearest-rail name and no distance; and the
candidate list is exactly the per-hotspot candidates of the loop. -/
theorem claim_C1_gap_candidate (dist : ℚ → ℚ → ℚ → ℚ → ℚ) (rails : List RailLoc)
    (minB minD : ℚ) (b : Hotspot) :
    ((gapCandidate dist rails minB minD b).isSome = true ↔
      (minB ≤ b.boardings ∧
        (rails = [] ∨ ∃ m, minDistQ dist b rails = some m ∧ minD < m))) ∧
    (rails = [] → minB ≤ b.boardings →
      gapCandidate dist rails minB minD b =
        some ⟨b.repStop, b.latR, b.lonR, b.boardings, none, none, b.routes⟩) ∧
    (∀ (hs : List Hotspot) (c : Candidate),
      c ∈ findGaps dist hs rails minB minD ↔
        ∃ b' ∈ hs, gapCandidate dist rails minB minD b' = some c) := by
  have hsnd := nearestRail_snd dist b.latR b.lonR rails
  have hgc : gapCandidate dist rails minB minD b =
      if minB ≤ b.boardings ∧ farEnough minD (nearestRail dist b.latR b.lonR rails) then
        some { name := b.repStop, lat := b.latR, lon := b.lonR, busBoardings := b.boardings,
               nearestRail := (nearestRail dist b.latR b.lonR rails).map (fun pr => pr.1),
               distanceMiles := (nearestRail dist b.latR b.lonR rails).map (fun pr => round2 pr.2),
               routes := b.routes }
      else none := rfl
  refine ⟨?_, ?_, ?_⟩
  · cases hnr : nearestRail dist b.latR b.lonR rails with
    | none =>
      have hmd : minDistQ dist b rails = none := by
        unfold minDistQ
        rw [← hsnd, hnr]
        rfl
      have hrails : rails = [] := by
        unfold minDistQ at hmd
        exact List.map_eq_nil_iff.mp (List.min?_eq_none_iff.mp hmd)
      rw [hgc, hnr]
      by_cases hb : minB ≤ b.boardings
      · rw [if_pos ⟨hb, trivial⟩]
        simp only [Option.isSome_some, true_iff]
        exact ⟨hb, Or.inl hrails⟩
      · rw [if_neg (fun hc => hb hc.1)]
        simp only [Option.isSome_none, Bool.false_eq_true, false_iff]
        exact fun hc => hb hc.1
    | some pr =>
      have hmd : minDistQ dist b rails = some pr.2 := by
        unfold minDistQ
        rw [← hsnd, hnr]
        rfl
      rw [hgc, hnr]
      by_cases hb : minB ≤ b.boardings
      · by_cases hfar : minD < pr.2
        · rw [if_pos ⟨hb, hfar⟩]
          simp only [Option.isSome_some, true_iff]
          exact ⟨hb, Or.inr ⟨pr.2, hmd, hfar⟩⟩
        · rw [if_neg (fun hc => hfar hc.2)]
          simp only [Option.isSome_none, Bool.false_eq_true, false_iff]
          rintro ⟨_, hor⟩
          rcases hor with hrails | ⟨m, hm, hlt⟩
          · rw [hrails] at hnr
            exact absurd hnr (by simp [nearestRail])
          · rw [hmd] at hm
            injection hm with hm
            exact hfar (hm ▸ hlt)
      · rw [if_neg (fun hc => hb hc.1)]
        simp only [Option.isSome_none, Bool.false_eq_true, false_iff]
        exact fun hc => hb hc.1
  · intro hrails hb
    subst hrails
    rw [hgc, if_pos ⟨hb, trivial⟩]
    rfl
  · intro hs c
    unfold findGaps
    exact List.mem_filterMap

/-- C1 witness: under the defaults (minimum 500 boardings, 1.0 mile), a
hotspot with 600 boardings whose nearest rail station is 1.5 miles away
is a candidate; the same hotspot at 0.5 miles is not; with no geocoded
rail stations it is a candidate with no nearest-rail name and no
distance. -/
theorem claim_C1_gap_candidate_witness :
    (gapCandidate (fun _ _ _ _ => 3/2)
      [⟨CellVal.str "B03", "Union Station", 0, 10, 20, "m", 1⟩] 500 1
      ⟨38, 77, 600, "X", "r"⟩).isSome = true ∧
    (gapCandidate (fun _ _ _ _ => 1/2)
      [⟨CellVal.str "B03", "Union Station", 0, 10, 20, "m", 1⟩] 500 1
      ⟨38, 77, 600, "X", "r"⟩).isSome = false ∧
    gapCandidate (fun _ _ _ _ => 3/2) [] 500 1 ⟨38, 77, 600, "X", "r"⟩ =
      some ⟨"X", 38, 77, 600, none, none, "r"⟩ := by
  refine ⟨?_, ?_, ?_⟩
  · exact (claim_C1_gap_candidate (fun _ _ _ _ => 3/2)
      [⟨CellVal.str "B03", "Union Station", 0, 10, 20, "m", 1⟩] 500 1
      ⟨38, 77, 600, "X", "r"⟩).1.mpr
      ⟨by norm_num, Or.inr ⟨3/2, by with_unfolding_all decide, by norm_num⟩⟩
  · have hiff := (claim_C1_gap_candidate (fun _ _ _ _ => 1/2)
      [⟨CellVal.str "B03", "Union Station", 0, 10, 20, "m", 1⟩] 500 1
      ⟨38, 77, 600, "X", "r"⟩).1
    refine Bool.eq_false_iff.mpr (fun htrue => ?_)
    obtain ⟨_, hor⟩ := hiff.mp htrue
    rcases hor with hrails | ⟨m, hm, hlt⟩
    · exact absurd hrails (by simp)
    · have hmd : minDistQ (fun _ _ _ _ => (1/2 : ℚ)) ⟨38, 77, 600, "X", "r"⟩
          [⟨CellVal.str "B03", "Union Station", 0, 10, 20, "m", 1⟩] = some (1/2) := by
        with_unfolding_all decide
      rw [hmd] at hm
      injection hm with hm
      rw [← hm] at hlt
      norm_num at hlt
  · exact (claim_C1_gap_candidate (fun _ _ _ _ => 3/2) [] 500 1
      ⟨38, 77, 600, "X", "r"⟩).2.1 rfl (by norm_num)

/-- C8 counterexample: the cap is applied **inside** the pipeline, not by
the caller — with 51 qualifying hotspots (boardings 501–551, no rail
stations), the per-hotspot candidate list has all 51 entries but the
final `sort_values(...).head(50)` artifact has only 50, so the final
candidate list does not contain every qualifying hotspot. -/
theorem claim_C8_counterexample :
    (findGaps (fun _ _ _ _ => 0)
      ((List.range 51).map (fun n => ⟨1, 2, ((551 - n : ℕ) : ℚ), "s", "r"⟩)) [] 500 1).length =
      51 ∧
    (gapFinal (fun _ _ _ _ => 0)
      ((List.range 51).map (fun n => ⟨1, 2, ((551 - n : ℕ) : ℚ), "s", "r"⟩)) [] 500 1).length =
      50 := by
  constructor <;> with_unfolding_all decide

/-- C8 (amended): the loop's candidate list contains every qualifying
hotspot, and the final artifact is that list sorted by bus boardings
descending and truncated to the top 50 **inside** `run_analysis`: it is
sorted, has `min (candidates, 50)` entries drawn from the candidate list,
and is a permutation of the full candidate list whenever at most 50
qualify.  Tie order among equal boardings is not specified by the source
(pandas' default unstable quicksort); no part of this statement depends
on it. -/
theorem claim_C8_sorted_capped (dist : ℚ → ℚ → ℚ → ℚ → ℚ) (hs : List Hotspot)
    (rails : List RailLoc) (minB minD : ℚ) :
    List.Sorted (fun c₁ c₂ : Candidate => c₂.busBoardings ≤ c₁.busBoardings)
      (gapFinal dist hs rails minB minD) ∧
    (gapFinal dist hs rails minB minD).length =
      min (findGaps dist hs rails minB minD).length 50 ∧
    (∀ c ∈ gapFinal dist hs rails minB minD, c ∈ findGaps dist hs rails minB minD) ∧
    ((findGaps dist hs rails minB minD).length ≤ 50 →
      (gapFinal dist hs rails minB minD).Perm (findGaps dist hs rails minB minD)) := by
  haveI htot : IsTotal Candidate (fun c₁ c₂ : Candidate => c₂.busBoardings ≤ c₁.busBoardings) :=
    ⟨fun a b => le_total b.busBoardings a.busBoardings⟩
  haveI htr : IsTrans Candidate (fun c₁ c₂ : Candidate => c₂.busBoardings ≤ c₁.busBoardings) :=
    ⟨fun _ _ _ hab hbc => le_trans hbc hab⟩
  have hlen : ((findGaps dist hs rails minB minD).insertionSort
      (fun c₁ c₂ : Candidate => c₂.busBoardings ≤ c₁.busBoardings)).length =
      (findGaps dist hs rails minB minD).length :=
    (List.perm_insertionSort _ _).length_eq
  refine ⟨?_, ?_, ?_, ?_⟩
  · exact List.Pairwise.sublist (List.take_sublist _ _)
      (List.sorted_insertionSort (fun c₁ c₂ : Candidate => c₂.busBoardings ≤ c₁.busBoardings) _)
  · unfold gapFinal
    rw [List.length_take, hlen, Nat.min_comm]
  · intro c hc
    have h1 : c ∈ (findGaps dist hs rails minB minD).insertionSort
        (fun c₁ c₂ : Candidate => c₂.busBoardings ≤ c₁.busBoardings) :=
      List.mem_of_mem_take hc
    exact (List.perm_insertionSort _ _).subset h1
  · intro h50
    unfold gapFinal
    rw [List.take_of_length_le (by rw [hlen]; exact h50)]
    exact List.perm_insertionSort _ _

set_option maxRecDepth 1024 in
/-- C8 witness: two qualifying hotspots (600 and 700 boardings, no rail
stations) produce a final list that is the sorted pair, a permutation of
the loop's candidate list. -/
theorem claim_C8_sorted_capped_witness :
    gapFinal (fun _ _ _ _ => 0) [⟨1, 2, 600, "a", "r"⟩, ⟨3, 4, 700, "b", "r"⟩] [] 500 1 =
      [⟨"b", 3, 4, 700, none, none, "r"⟩, ⟨"a", 1, 2, 600, none, none, "r"⟩] ∧
    (gapFinal (fun _ _ _ _ => 0) [⟨1, 2, 600, "a", "r"⟩, ⟨3, 4, 700, "b", "r"⟩] [] 500 1).Perm
      (findGaps (fun _ _ _ _ => 0) [⟨1, 2, 600, "a", "r"⟩, ⟨3, 4, 700, "b", "r"⟩] [] 500 1) := by
  constructor
  · with_unfolding_all decide
  · exact (claim_C8_sorted_capped (fun _ _ _ _ => 0)
      [⟨1, 2, 600, "a", "r"⟩, ⟨3, 4, 700, "b", "r"⟩] [] 500 1).2.2.2
      (by with_unfolding_all decide)

end HotZones
